import Mathlib

/-!
# thrift.go: the thrift formatter of goyang

A shallow embedding of `src/thrift.go` (package `main`): the table
`kind2thrift` and the renderer `FormatStruct`, with the facts proved about them.

Conventions of the embedding.

* A Go `string` is a Lean `String`.  Go compares strings byte by byte; on
  valid UTF-8 that order is the code point order, which is the order of
  `String` in Lean.
* An `io.Writer` is the text written to it so far (`Writer`); a write appends
  (write errors are ignored by the source, which drops every result of `fmt`).
* A Go `map[K]V` is an association list; the order of the list is the order in
  which `range` enumerates the map.  A Go map holds a key once (`NodupKeys`).
* A pointer field that the source only compares with `nil` is an `Option`.
* A nil-pointer dereference is the result `none`.
* What `FormatStruct` uses from the rest of the repository but is not declared in
  `thrift.go` (`fixName`, `kind2proto`, `yang.Source`, `indent.NewWriter`)
  is a field of the environment `Pkg`: every theorem holds for each
  implementation of them.  `doThrift` takes the `flatten` of package `main` as
  an argument in the same way.
* Where a statement is about `flatten` or about the lines that the indenting
  writer produces, these are the definitions `flatten` and `indentWrite`,
  written after the spec.
-/

namespace Thrift

/-! ## Data model -/

/-- Modelled from the spec: `yang.TypeKind`, the type-kind enumeration, is declared
in `pkg/yang` and not in `thrift.go`.  The eighteen constants are the ones that
`thrift.go` names as keys of `kind2thrift` (the kinds that the data model of the
spec lists); `other n` stands for every further value of the type, which a
lookup in a Go map has to answer as well. -/
inductive TypeKind where
  | Yint8 | Yint16 | Yint32 | Yint64
  | Yuint8 | Yuint16 | Yuint32 | Yuint64
  | Ybinary | Ybits | Ybool | Ydecimal64 | Yenum | Yidentityref
  | YinstanceIdentifier | Yleafref | Ystring | Yunion
  | other (n : Nat)
  deriving DecidableEq, Repr

/-- The part of `yang.YangType` that `FormatStruct` reads: `se.Typ.Kind`. -/
structure YangType where
  Kind : TypeKind
  deriving DecidableEq, Repr

/-- The target of `Entry.ListAttr`; `FormatStruct` only tests the pointer for nil. -/
structure ListAttr where
  deriving DecidableEq, Repr

/-- The target of `Entry.RPC`; `FormatStruct` only tests the pointer for nil. -/
structure RPCEntry where
  deriving DecidableEq, Repr

/-- A `yang.Node`; `FormatStruct` only hands it to `yang.Source`. -/
structure Node where
  id : Nat
  deriving DecidableEq, Repr

/-- The fields of `yang.Entry` that `thrift.go` reads. `Dir` is the Go map
`map[string]*Entry`, in enumeration order. -/
inductive Entry where
  | mk (Name : String) (Description : String) (Dir : List (String × Entry))
      (RPC : Option RPCEntry) (ListAttr : Option ListAttr)
      (Typ : Option YangType) (Node : Node)

namespace Entry

def Name : Entry → String
  | mk n _ _ _ _ _ _ => n

def Description : Entry → String
  | mk _ d _ _ _ _ _ => d

def Dir : Entry → List (String × Entry)
  | mk _ _ d _ _ _ _ => d

def RPC : Entry → Option RPCEntry
  | mk _ _ _ r _ _ _ => r

def ListAttr : Entry → Option Thrift.ListAttr
  | mk _ _ _ _ l _ _ => l

/-- The field `Type` of `yang.Entry` (`Type` is reserved in Lean). -/
def Typ : Entry → Option YangType
  | mk _ _ _ _ _ t _ => t

def Node : Entry → Thrift.Node
  | mk _ _ _ _ _ _ n => n

end Entry

/-- A Go map as an association list holds every key once. -/
def NodupKeys {α β : Type} (m : List (α × β)) : Prop :=
  (m.map Prod.fst).Nodup

instance {α β : Type} [DecidableEq α] (m : List (α × β)) : Decidable (NodupKeys m) :=
  inferInstanceAs (Decidable (m.map Prod.fst).Nodup)

/-- The Go index expression `m[k]` on a map of strings: the zero value `""` when
the key is absent. -/
def mapIndex {α : Type} [DecidableEq α] : List (α × String) → α → String
  | [], _ => ""
  | (k, v) :: m, a => if k = a then v else mapIndex m a

/-- The Go index expression `e.Dir[k]` on a map of pointers: `none` (the nil pointer)
when the key is absent. -/
def dirIndex : List (String × Entry) → String → Option Entry
  | [], _ => none
  | (k, se) :: m, a => if k = a then some se else dirIndex m a

/-- The text written so far to an `io.Writer`. -/
abbrev Writer := String

/-- The calls `fmt.Fprint(w, s)` and `fmt.Fprintf(w, ...)` once the format is expanded to `s`. -/
def Fprint (w : Writer) (s : String) : Writer := w ++ s

/-- The call `fmt.Fprintln(w, s)`; `fmt.Fprintln(w)` is `Fprintln w ""`. -/
def Fprintln (w : Writer) (s : String) : Writer := w ++ s ++ "\n"

/-- What `thrift.go` uses from the rest of the repository without declaring it. -/
structure Pkg where
  /-- The function `fixName` of package `main`. -/
  fixName : String → String
  /-- The table `kind2proto`, of package `main` that `FormatStruct` indexes. -/
  kind2proto : List (TypeKind × String)
  /-- The function `yang.Source`. -/
  Source : Node → String
  /-- The text `indentWrite pre s` is what reaches the underlying writer when `s` is
  written in one call to `indent.NewWriter(w, pre)`. -/
  indentWrite : String → String → String

/-! ## thrift.go -/

/-- The table `kind2thrift` (lines 41-62), the map literal in source order. -/
def kind2thrift : List (TypeKind × String) :=
  [ (.Yint8, "byte"),
    (.Yint16, "i16"),
    (.Yint32, "i32"),
    (.Yint64, "i64"),
    (.Yuint8, "TODO-uint8"),
    (.Yuint16, "TODO-uint16"),
    (.Yuint32, "TODO-uint32"),
    (.Yuint64, "TODO-uint64"),
    (.Ybinary, "TODO-bytes"),
    (.Ybits, "TODO-bits"),
    (.Ybool, "bool"),
    (.Ydecimal64, "TODO-decimal64"),
    (.Yenum, "enum"),
    (.Yidentityref, "string"),
    (.YinstanceIdentifier, "TODO-ii"),
    (.Yleafref, "string"),
    (.Ystring, "string"),
    (.Yunion, "TODO-union") ]

/-- The loop of lines 70-74: `names` grows by the key of every child whose `RPC`
is nil, in enumeration order. -/
def collectNames : List (String × Entry) → List String → List String
  | [], names => names
  | (k, se) :: rest, names =>
      collectNames rest (if se.RPC = none then names ++ [k] else names)

/-- The library call `sort.Strings`: the slice in ascending order. Go orders strings byte by byte;
here the characters of the two strings are compared from the left. -/
def sortStrings (names : List String) : List String :=
  names.insertionSort (fun a b => a.data ≤ b.data)

/-- The scan of `strings.Replace(s, old, new, -1)` for a non-empty `old`, on the characters of
the strings: scanning from the left, every occurrence of `old` that does not
overlap an earlier one is replaced by `new`.  `skip` counts the characters of the
occurrence just replaced that are still to be passed over. -/
def replaceFrom (old new : List Char) : Nat → List Char → List Char
  | _, [] => []
  | skip + 1, _ :: cs => replaceFrom old new skip cs
  | 0, c :: cs =>
      if old.isPrefixOf (c :: cs) then new ++ replaceFrom old new (old.length - 1) cs
      else c :: replaceFrom old new 0 cs

/-- The library call `strings.Replace(s, old, new, -1)`. -/
def Replace (s old new : String) : String :=
  ⟨replaceFrom old.data new.data 0 s.data⟩

/-- The body of the loop of lines 86-121 for index `x` and key `k`. -/
def formatField (P : Pkg) (e : Entry) (x : Nat) (k : String) (w : Writer) :
    Option Writer :=
  match dirIndex e.Dir k with
  | none => none
  | some se =>
    let k := Replace k "-" "_"
    let w := if se.Description ≠ "" then
        w ++ P.indentWrite "  // " (se.Description ++ "\n") else w
    let w := Fprint w ("    " ++ toString (x + 1) ++ ": ")
    let w := if se.ListAttr ≠ none then Fprint w "list" else Fprint w "optional "
    if se.Dir.length = 0 ∧ se.Typ ≠ none then
      let kind := "UNKNOWN TYPE"
      let kind := match se.Typ with
        | some t => mapIndex P.kind2proto t.Kind
        | none => kind
      let w := if se.ListAttr ≠ none then Fprint w ("<" ++ kind ++ "> ")
        else Fprint w (kind ++ " ")
      some (Fprint w (k ++ "; // " ++ P.Source se.Node ++ "\n"))
    else
      let w := if se.ListAttr ≠ none then Fprint w ("<" ++ P.fixName se.Name ++ "> ")
        else Fprint w (P.fixName se.Name ++ " ")
      some (Fprint w (k ++ "; // " ++ P.Source se.Node ++ "\n"))

/-- The loop `for x, k := range names` of lines 86-121, from index `x` on. -/
def formatFields (P : Pkg) (e : Entry) : Nat → List String → Writer → Option Writer
  | _, [], w => some w
  | x, k :: names, w =>
      match formatField P e x k w with
      | none => none
      | some w => formatFields P e (x + 1) names w

/-- The function `FormatStruct` (lines 64-124). -/
def FormatStruct (P : Pkg) (w : Writer) (e : Entry) : Option Writer :=
  let names := collectNames e.Dir []
  if names.length = 0 then some w
  else
    let w := Fprintln w ""
    let w := if e.Description ≠ "" then
        w ++ P.indentWrite "// " (e.Description ++ "\n") else w
    let w := Fprint w ("struct " ++ P.fixName e.Name ++ " \x7b\n")
    let names := sortStrings names
    match formatFields P e 0 names w with
    | none => none
    | some w => some (Fprintln w "\x7d")

/-! ## The text of a struct, piece by piece -/

/-- Whether a child is kept by the loop of lines 70-74: its `RPC` is nil. -/
def nonRPC (p : String × Entry) : Bool := decide (p.2.RPC = none)

namespace Spec

/-- Concatenation of a list of texts, in order. -/
def concat : List String → String
  | [] => ""
  | s :: l => s ++ concat l

/-- The comment block of a description `d` under the prefix `pre`: nothing for an
empty description, else the description and a newline sent through the
indenting writer. -/
def commentBlock (P : Pkg) (pre d : String) : String :=
  if d = "" then "" else P.indentWrite pre (d ++ "\n")

/-- The resolved type token of a child: the `kind2proto` entry of its kind for a
leaf (no children, a type), else its normalised name. -/
def typeToken (P : Pkg) (se : Entry) : String :=
  match se.Dir, se.Typ with
  | [], some t => mapIndex P.kind2proto t.Kind
  | _, _ => P.fixName se.Name

/-- What follows the tag on the field line of the child `se` under the key `k`:
modifier, type token, field name, trailing comment. -/
def fieldRest (P : Pkg) (k : String) (se : Entry) : String :=
  if se.ListAttr ≠ none then
    "list<" ++ typeToken P se ++ "> " ++ Replace k "-" "_" ++ "; // " ++ P.Source se.Node ++ "\n"
  else
    "optional " ++ typeToken P se ++ " " ++ Replace k "-" "_" ++ "; // " ++
      P.Source se.Node ++ "\n"

/-- The field line of the child `se` under the key `k` with tag `i`. -/
def fieldLine (P : Pkg) (i : Nat) (k : String) (se : Entry) : String :=
  "    " ++ toString i ++ ": " ++ fieldRest P k se

/-- The comment block of a child followed by its field line. -/
def fieldBlock (P : Pkg) (i : Nat) (k : String) (se : Entry) : String :=
  commentBlock P "  // " se.Description ++ fieldLine P i k se

/-- The children with a nil `RPC`, in ascending order of their keys. -/
def children (e : Entry) : List (String × Entry) :=
  (e.Dir.filter nonRPC).insertionSort (fun a b => a.1.data ≤ b.1.data)

/-- The blocks of the children `cs`, the first of them with tag `x + 1`. -/
def fieldsText (P : Pkg) (x : Nat) (cs : List (String × Entry)) : String :=
  concat ((cs.enumFrom x).map fun q => fieldBlock P (q.1 + 1) q.2.1 q.2.2)

/-- The text of one struct: blank line, comment block, header, fields, brace. -/
def structText (P : Pkg) (e : Entry) : String :=
  "\n" ++ commentBlock P "// " e.Description ++ "struct " ++ P.fixName e.Name ++ " \x7b\n" ++
    fieldsText P 0 (children e) ++ "\x7d\n"

end Spec

/-! ## Sample inputs -/

/-- A sample environment: `fixName` and `yang.Source` as given below, `kind2proto`
with two entries, and an `indent.NewWriter` that puts the prefix before a
single line. -/
def samplePkg : Pkg where
  fixName := fun s => s
  kind2proto := [(.Ystring, "string"), (.Yuint16, "uint32")]
  Source := fun n => "f.yang:" ++ toString n.id
  indentWrite := fun pre s => pre ++ s

def leafHost : Entry :=
  .mk "host-name" "" [] none none (some ⟨.Ystring⟩) ⟨3⟩

def leafIp : Entry :=
  .mk "ip-addr" "" [] none (some ⟨⟩) (some ⟨.Yuint16⟩) ⟨4⟩

def rpcReset : Entry :=
  .mk "reset" "" [] (some ⟨⟩) none none ⟨5⟩

def device : Entry :=
  .mk "Device" "" [("ip-addr", leafIp), ("reset", rpcReset), ("host-name", leafHost)]
    none none none ⟨2⟩


def rpcOnly : Entry :=
  .mk "ops" "operations" [("reset", rpcReset)] none none none ⟨6⟩

def deviceSwapped : Entry :=
  .mk "Device" "" [("reset", rpcReset), ("ip-addr", leafIp), ("host-name", leafHost)]
    none none none ⟨2⟩

def system : Entry :=
  .mk "system" "System group" [("host-name", leafHost)] none none (some ⟨.Ystring⟩) ⟨7⟩

def root : Entry :=
  .mk "root" "" [("system", system)] none none none ⟨1⟩

def twins : Entry :=
  .mk "twins" "" [("a_b", leafHost), ("a-b", leafIp)] none none none ⟨8⟩

/-! ## doThrift and what it calls -/

mutual
/-- Modelled from the spec: `flatten` is declared elsewhere in package `main`, not
in `thrift.go`.  The node itself, followed by the flattened result of every
child in the order in which the children are enumerated, depth first; nothing
is filtered. -/
def flatten : Entry → List Entry
  | .mk n d dir r l t nd => .mk n d dir r l t nd :: flattenDir dir
/-- The flattened results of the children of a node, one after the other. -/
def flattenDir : List (String × Entry) → List Entry
  | [] => []
  | (_, c) :: rest => flatten c ++ flattenDir rest
end

mutual
/-- The number of nodes of a tree. -/
def Entry.size : Entry → Nat
  | .mk _ _ dir _ _ _ _ => 1 + sizeDir dir
/-- The number of nodes of the trees of a child map. -/
def sizeDir : List (String × Entry) → Nat
  | [] => 0
  | (_, c) :: rest => c.size + sizeDir rest
end

/-- The inner loop of `doThrift` (lines 35-37): `FormatStruct` on each node of a
flattened list in turn. -/
def formatAll (P : Pkg) : List Entry → Writer → Option Writer
  | [], w => some w
  | e :: es, w =>
      match FormatStruct P w e with
      | none => none
      | some w => formatAll P es w

/-- The function `doThrift` (lines 33-39); `fl` is the `flatten` of package `main`. -/
def doThrift (P : Pkg) (fl : Entry → List Entry) : Writer → List Entry → Option Writer
  | w, [] => some w
  | w, e :: entries =>
      match formatAll P (fl e) w with
      | none => none
      | some w => doThrift P fl w entries

/-- The body of the loop of lines 86-121 with the initial value of `kind`
(line 100) as the parameter `unknown`; `formatField` is its value at the
literal of the source. -/
def formatFieldInit (unknown : String) (P : Pkg) (e : Entry) (x : Nat) (k : String)
    (w : Writer) : Option Writer :=
  match dirIndex e.Dir k with
  | none => none
  | some se =>
    let k := Replace k "-" "_"
    let w := if se.Description ≠ "" then
        w ++ P.indentWrite "  // " (se.Description ++ "\n") else w
    let w := Fprint w ("    " ++ toString (x + 1) ++ ": ")
    let w := if se.ListAttr ≠ none then Fprint w "list" else Fprint w "optional "
    if se.Dir.length = 0 ∧ se.Typ ≠ none then
      let kind := unknown
      let kind := match se.Typ with
        | some t => mapIndex P.kind2proto t.Kind
        | none => kind
      let w := if se.ListAttr ≠ none then Fprint w ("<" ++ kind ++ "> ")
        else Fprint w (kind ++ " ")
      some (Fprint w (k ++ "; // " ++ P.Source se.Node ++ "\n"))
    else
      let w := if se.ListAttr ≠ none then Fprint w ("<" ++ P.fixName se.Name ++ "> ")
        else Fprint w (P.fixName se.Name ++ " ")
      some (Fprint w (k ++ "; // " ++ P.Source se.Node ++ "\n"))

/-! ## The indenting writer and the lines of a description -/

/-- The lines of a written text, each with the newline that ends it; a last line
without a newline is kept as it is. -/
def linesAfter : List Char → List (List Char)
  | [] => []
  | c :: cs =>
      if c = '\n' then [c] :: linesAfter cs
      else
        match linesAfter cs with
        | [] => [[c]]
        | l :: ls => (c :: l) :: ls

/-- Modelled from the spec: `indent.NewWriter` is declared in `pkg/indent`, not in
`thrift.go`.  A description comes out as a block of prefixed comment lines, one
per line of the input, the line breaks kept: every line of the text written
reaches the underlying writer with the prefix before it. -/
def indentWrite (pre s : String) : String :=
  Spec.concat ((linesAfter s.data).map fun l => pre ++ String.mk l)

/-- The pieces of a text between its newlines. -/
def splitLines : List Char → List (List Char)
  | [] => [[]]
  | c :: cs =>
      if c = '\n' then [] :: splitLines cs
      else
        match splitLines cs with
        | [] => [[c]]
        | l :: ls => (c :: l) :: ls

/-- The lines of a description. -/
def descLines (d : String) : List String :=
  (splitLines d.data).map String.mk

/-- The lines put together again, a newline between two of them. -/
def joinLines : List String → String
  | [] => ""
  | [l] => l
  | l :: m :: ms => l ++ "\n" ++ joinLines (m :: ms)

/-- A comment line without its prefix of `n` characters and without its newline. -/
def stripLine (n : Nat) (s : String) : String :=
  String.mk (s.data.drop n).dropLast

namespace Spec

/-- The text that `FormatStruct` writes for a node, on an empty writer. -/
def written (P : Pkg) (e : Entry) : String :=
  (FormatStruct P "" e).getD ""

end Spec

/-- The node `c` with the description `d` in place of its own. -/
def Entry.setDescription : Entry → String → Entry
  | .mk n _ dir r l t nd, d => .mk n d dir r l t nd

/-! ## More sample inputs -/

/-- The sample environment with the indenting writer modelled above. -/
def specPkg : Pkg :=
  { samplePkg with indentWrite := indentWrite }

/-- The sample environment in which `kind2proto` holds the entries of `kind2thrift`. -/
def thriftPkg : Pkg :=
  { specPkg with kind2proto := kind2thrift }

def deviceTwo : Entry :=
  .mk "Device" "" [("host-name", leafHost), ("ip-addr", leafIp)] none none none ⟨2⟩

def leafNoted : Entry :=
  .mk "host-name" "Name of the host.\nAs configured." [] none none (some ⟨.Ystring⟩) ⟨3⟩

def noted : Entry :=
  .mk "system" "System group.\nSecond line." [("host-name", leafNoted)] none none none ⟨7⟩

def hollow : Entry :=
  .mk "state" "" [] none none none ⟨9⟩

def shell : Entry :=
  .mk "shell" "" [("state", hollow)] none none none ⟨10⟩

def rpcWithLeaf : Entry :=
  .mk "reset" "" [("host-name", leafHost)] (some ⟨⟩) none none ⟨5⟩

def forest : Entry :=
  .mk "top" "" [("ops", rpcOnly), ("system", system), ("ip-addr", leafIp)] none none none ⟨11⟩

/-- The entry `p` of a child map with the description of the child replaced by
`d` when its key is `k`, and as it is otherwise. -/
def redescribe (k d : String) (p : String × Entry) : String × Entry :=
  if p.1 = k then (p.1, p.2.setDescription d) else p

/-! ## Lemmas on the pieces of `FormatStruct` -/

theorem collectNames_eq (dir : List (String × Entry)) (names : List String) :
    collectNames dir names = names ++ (dir.filter nonRPC).map Prod.fst := by
  induction dir generalizing names with
  | nil => simp [collectNames]
  | cons p rest ih =>
    obtain ⟨k, se⟩ := p
    by_cases h : se.RPC = none
    · simp [collectNames, ih, h, nonRPC]
    · simp [collectNames, ih, h, nonRPC]

theorem collectNames_nil (dir : List (String × Entry)) :
    collectNames dir [] = (dir.filter nonRPC).map Prod.fst := by
  rw [collectNames_eq]; rfl

theorem dirIndex_of_mem {dir : List (String × Entry)} (hd : NodupKeys dir)
    {k : String} {se : Entry} (h : (k, se) ∈ dir) : dirIndex dir k = some se := by
  induction dir with
  | nil => simp at h
  | cons p rest ih =>
    obtain ⟨k', se'⟩ := p
    simp only [NodupKeys, List.map_cons, List.nodup_cons] at hd
    rcases List.mem_cons.1 h with h | h
    · cases h; simp [dirIndex]
    · have : k' ≠ k := by
        rintro rfl
        exact hd.1 (List.mem_map.2 ⟨(k', se), h, rfl⟩)
      simp [dirIndex, this, ih hd.2 h]

theorem map_orderedInsert_key {α : Type} (l : List (String × α)) (p : String × α) :
    (l.orderedInsert (fun a b => a.1.data ≤ b.1.data) p).map Prod.fst =
      (l.map Prod.fst).orderedInsert (fun a b => a.data ≤ b.data) p.1 := by
  induction l with
  | nil => simp
  | cons q l ih =>
    by_cases h : p.1.data ≤ q.1.data
    · simp [List.orderedInsert, h]
    · simp [List.orderedInsert, h, ih]

theorem map_insertionSort_key {α : Type} (l : List (String × α)) :
    (l.insertionSort (fun a b => a.1.data ≤ b.1.data)).map Prod.fst =
      sortStrings (l.map Prod.fst) := by
  induction l with
  | nil => simp [sortStrings]
  | cons q l ih =>
    simp only [List.insertionSort, List.map_cons, sortStrings, map_orderedInsert_key]
    rw [ih]; rfl

theorem sortStrings_sorted (l : List String) : (sortStrings l).Sorted (· ≤ ·) := by
  have total : IsTotal String (fun a b => a.data ≤ b.data) :=
    ⟨fun a b => by
      have := le_total a b
      simpa [String.le_iff_toList_le] using this⟩
  have trans : IsTrans String (fun a b => a.data ≤ b.data) :=
    ⟨fun a b c hab hbc => by
      have h1 : a ≤ b := String.le_iff_toList_le.2 hab
      have h2 : b ≤ c := String.le_iff_toList_le.2 hbc
      exact String.le_iff_toList_le.1 (le_trans h1 h2)⟩
  have h := List.sorted_insertionSort (fun a b : String => a.data ≤ b.data) l
  exact List.Pairwise.imp (fun {a b} hab => String.le_iff_toList_le.2 hab) h

theorem children_perm (e : Entry) : (Spec.children e).Perm (e.Dir.filter nonRPC) :=
  List.perm_insertionSort _ _

theorem children_keys (e : Entry) :
    (Spec.children e).map Prod.fst = sortStrings ((e.Dir.filter nonRPC).map Prod.fst) :=
  map_insertionSort_key _

theorem children_keys_sorted {e : Entry} (hd : NodupKeys e.Dir) :
    ((Spec.children e).map Prod.fst).Sorted (· < ·) := by
  have hs : ((Spec.children e).map Prod.fst).Sorted (· ≤ ·) := by
    rw [children_keys]; exact sortStrings_sorted _
  have hn : ((Spec.children e).map Prod.fst).Nodup := by
    have h1 : ((e.Dir.filter nonRPC).map Prod.fst).Nodup :=
      List.Nodup.sublist ((List.filter_sublist _).map _) hd
    exact ((children_perm e).map _).nodup_iff.2 h1
  exact hs.lt_of_le hn

theorem children_index {e : Entry} (hd : NodupKeys e.Dir) :
    ∀ p ∈ Spec.children e, dirIndex e.Dir p.1 = some p.2 := by
  intro p hp
  have h1 : p ∈ e.Dir.filter nonRPC := (children_perm e).mem_iff.1 hp
  exact dirIndex_of_mem hd (List.mem_of_mem_filter h1)

theorem filter_nonRPC_eq_nil (dir : List (String × Entry)) :
    dir.filter nonRPC = [] ↔ dir.any nonRPC = false := by
  induction dir with
  | nil => simp
  | cons p rest ih =>
    by_cases hp : nonRPC p = true
    · simp [hp]
    · simp [hp, ih]

theorem any_nonRPC_iff (dir : List (String × Entry)) :
    dir.any nonRPC = true ↔ ∃ p ∈ dir, p.2.RPC = none := by
  simp [List.any_eq_true, nonRPC]

theorem list_lt_append (s : String) : "list" ++ ("<" ++ s) = "list<" ++ s := by
  rw [← String.append_assoc]; rfl

theorem formatField_eq (P : Pkg) (e : Entry) (x : Nat) (k : String) (w : Writer)
    (se : Entry) (h : dirIndex e.Dir k = some se) :
    formatField P e x k w = some (w ++ Spec.fieldBlock P (x + 1) k se) := by
  unfold formatField
  rw [h]
  rcases se with ⟨n, d, dir, r, l, t, nd⟩
  simp only [Entry.Description, Entry.ListAttr, Entry.Dir, Entry.Typ, Entry.Name, Entry.Node,
    Spec.fieldBlock, Spec.fieldLine, Spec.fieldRest, Spec.commentBlock, Spec.typeToken, Fprint]
  by_cases hd : d = "" <;> by_cases hl : l = none <;> cases dir <;> cases t <;>
    simp [hd, hl, String.append_assoc, list_lt_append, -String.reduceAppend]

theorem formatFields_eq (P : Pkg) (e : Entry) (cs : List (String × Entry))
    (h : ∀ p ∈ cs, dirIndex e.Dir p.1 = some p.2) (x : Nat) (w : Writer) :
    formatFields P e x (cs.map Prod.fst) w = some (w ++ Spec.fieldsText P x cs) := by
  induction cs generalizing x w with
  | nil => simp [formatFields, Spec.fieldsText, Spec.concat]
  | cons p rest ih =>
    obtain ⟨k, se⟩ := p
    have hk : dirIndex e.Dir k = some se := h (k, se) (List.mem_cons_self _ _)
    simp only [List.map_cons, formatFields, formatField_eq P e x k w se hk]
    rw [ih (fun q hq => h q (List.mem_cons_of_mem _ hq))]
    simp [Spec.fieldsText, Spec.concat, List.enumFrom, String.append_assoc]

theorem FormatStruct_eq (P : Pkg) (w : Writer) (e : Entry) (hd : NodupKeys e.Dir) :
    FormatStruct P w e =
      some (if e.Dir.any nonRPC then w ++ Spec.structText P e else w) := by
  unfold FormatStruct
  by_cases h0 : e.Dir.filter nonRPC = []
  · have hc : collectNames e.Dir [] = [] := by rw [collectNames_nil, h0]; rfl
    simp [hc, (filter_nonRPC_eq_nil _).1 h0]
  · have h1 : e.Dir.any nonRPC = true := by
      cases h : e.Dir.any nonRPC
      · exact absurd ((filter_nonRPC_eq_nil _).2 h) h0
      · rfl
    have hc : (collectNames e.Dir []).length ≠ 0 := by
      rw [collectNames_nil, List.length_map]
      exact fun h => h0 (List.length_eq_zero.1 h)
    have hs : sortStrings (collectNames e.Dir []) = (Spec.children e).map Prod.fst := by
      rw [collectNames_nil]; exact (map_insertionSort_key _).symm
    simp only [hc, h1, if_false, if_true, hs, formatFields_eq P e _ (children_index hd)]
    have hb : ("\x7d" ++ "\n" : String) = "\x7d\n" := rfl
    by_cases hdesc : e.Description = "" <;>
      simp [hdesc, hb, Fprint, Fprintln, Spec.structText, Spec.commentBlock,
        String.append_assoc, -String.reduceAppend]

theorem FormatStruct_of_nonRPC (P : Pkg) (w : Writer) (e : Entry) (hd : NodupKeys e.Dir)
    (hne : ∃ p ∈ e.Dir, p.2.RPC = none) :
    FormatStruct P w e = some (w ++ Spec.structText P e) := by
  rw [FormatStruct_eq P w e hd, (any_nonRPC_iff _).2 hne]; rfl

theorem structText_ne_empty (P : Pkg) (e : Entry) : Spec.structText P e ≠ "" := by
  intro h
  have := congrArg String.length h
  simp only [Spec.structText, String.length_append] at this
  have h2 : ("\x7d\n" : String).length = 2 := rfl
  have h3 : ("" : String).length = 0 := rfl
  omega

theorem append_eq_self {w s : String} (h : w ++ s = w) : s = "" := by
  have := congrArg String.length h
  simp [String.length_append] at this
  exact String.ext (List.length_eq_zero.1 this)

theorem enumFrom_map_snd {α β : Type} (f : α → β) (l : List α) (n : Nat) :
    (l.map f).enumFrom n = (l.enumFrom n).map fun q => (q.1, f q.2) := by
  induction l generalizing n with
  | nil => rfl
  | cons a l ih => simp [List.enumFrom, ih]

theorem map_fst_enumFrom {α : Type} (l : List α) (n : Nat) :
    ((l.enumFrom n).map fun q => q.1 + 1) = List.range' (n + 1) l.length := by
  induction l generalizing n with
  | nil => rfl
  | cons a l ih => simp [List.enumFrom, List.range', ih]

theorem children_eq_of_perm {e1 e2 : Entry} (hd : NodupKeys e1.Dir)
    (hp : e1.Dir.Perm e2.Dir) : Spec.children e1 = Spec.children e2 := by
  have hd2 : NodupKeys e2.Dir := (hp.map _).nodup_iff.1 hd
  have hperm : (Spec.children e1).Perm (Spec.children e2) :=
    (children_perm e1).trans ((hp.filter _).trans (children_perm e2).symm)
  have s1 : (Spec.children e1).Sorted (fun a b => a.1 < b.1) :=
    List.pairwise_map.1 (children_keys_sorted hd)
  have s2 : (Spec.children e2).Sorted (fun a b => a.1 < b.1) :=
    List.pairwise_map.1 (children_keys_sorted hd2)
  haveI : IsAntisymm (String × Entry) (fun a b => a.1 < b.1) :=
    ⟨fun _ _ h1 h2 => absurd h2 (lt_asymm h1)⟩
  exact List.eq_of_perm_of_sorted hperm s1 s2

theorem any_nonRPC_of_perm {d1 d2 : List (String × Entry)} (hp : d1.Perm d2) :
    d1.any nonRPC = d2.any nonRPC := by
  rw [Bool.eq_iff_iff, List.any_eq_true, List.any_eq_true]
  exact ⟨fun ⟨p, hm, h⟩ => ⟨p, hp.mem_iff.1 hm, h⟩, fun ⟨p, hm, h⟩ => ⟨p, hp.mem_iff.2 hm, h⟩⟩

theorem replaceFrom_hyphen (cs : List Char) :
    replaceFrom ['-'] ['_'] 0 cs = cs.map fun c => if c = '-' then '_' else c := by
  induction cs with
  | nil => rfl
  | cons c cs ih =>
    by_cases h : c = '-'
    · subst h
      simp [replaceFrom, List.isPrefixOf, ih]
    · have h2 : ('-' == c) = false := by
        rw [beq_eq_false_iff_ne]; exact fun h3 => h h3.symm
      simp [replaceFrom, List.isPrefixOf, ih, h, h2]

theorem Replace_hyphen (k : String) :
    Replace k "-" "_" = ⟨k.data.map fun c => if c = '-' then '_' else c⟩ := by
  unfold Replace
  exact congrArg String.mk (replaceFrom_hyphen k.data)

theorem sample_children_device :
    Spec.children device = [("host-name", leafHost), ("ip-addr", leafIp)] := by
  rfl

theorem concat_append (a b : List String) :
    Spec.concat (a ++ b) = Spec.concat a ++ Spec.concat b := by
  induction a with
  | nil => simp [Spec.concat]
  | cons s a ih => simp [Spec.concat, ih, String.append_assoc]

theorem fieldsText_split (P : Pkg) (l1 l2 : List (String × Entry)) (k : String) (c : Entry)
    (x : Nat) :
    Spec.fieldsText P x (l1 ++ (k, c) :: l2) =
      Spec.fieldsText P x l1 ++
        (Spec.fieldBlock P (x + l1.length + 1) k c ++
          Spec.fieldsText P (x + l1.length + 1) l2) := by
  simp only [Spec.fieldsText, List.enumFrom_append, List.map_append, concat_append,
    List.enumFrom, List.map, Spec.concat]

theorem FormatStruct_block_of_child (P : Pkg) (w : Writer) (e : Entry)
    (hd : NodupKeys e.Dir) (k : String) (c : Entry) (hc : (k, c) ∈ e.Dir)
    (hr : c.RPC = none) :
    ∃ (i : Nat) (pre post : String), i < (e.Dir.filter nonRPC).length ∧
      FormatStruct P w e = some (w ++ pre ++ Spec.fieldBlock P (i + 1) k c ++ post) := by
  have hmem : (k, c) ∈ Spec.children e :=
    (children_perm e).mem_iff.2 (List.mem_filter.2 ⟨hc, by simp [nonRPC, hr]⟩)
  obtain ⟨l1, l2, hsplit⟩ := List.append_of_mem hmem
  have hlen : (Spec.children e).length = (e.Dir.filter nonRPC).length :=
    (children_perm e).length_eq
  refine ⟨l1.length,
    "\n" ++ Spec.commentBlock P "// " e.Description ++ "struct " ++ P.fixName e.Name ++
      " \x7b\n" ++ Spec.fieldsText P 0 l1,
    Spec.fieldsText P (l1.length + 1) l2 ++ "\x7d\n", ?_, ?_⟩
  · rw [← hlen, hsplit, List.length_append, List.length_cons]; omega
  · rw [FormatStruct_of_nonRPC P w e hd ⟨(k, c), hc, hr⟩]
    simp only [Spec.structText, hsplit, fieldsText_split, Nat.zero_add, String.append_assoc]

/-! ## The claims -/

/-- C1: `FormatStruct` writes zero bytes exactly when the node has no child whose
`RPC` is nil (an empty `Dir`, or only RPC children); such a node gets no blank
line and no struct header, and the writer is left as it was. -/
theorem C1_no_output_iff_no_nonRPC_child (P : Pkg) (w : Writer) (e : Entry)
    (hd : NodupKeys e.Dir) :
    ∃ out : String, FormatStruct P w e = some (w ++ out) ∧
      (out = "" ↔ ∀ p ∈ e.Dir, p.2.RPC ≠ none) ∧
      (FormatStruct P w e = some w ↔ ∀ p ∈ e.Dir, p.2.RPC ≠ none) := by
  rw [FormatStruct_eq P w e hd]
  by_cases h : e.Dir.any nonRPC = true
  · have hex := (any_nonRPC_iff _).1 h
    have hno : ¬ ∀ p ∈ e.Dir, p.2.RPC ≠ none := by
      intro hall
      obtain ⟨p, hp, hr⟩ := hex
      exact hall p hp hr
    refine ⟨Spec.structText P e, by simp [h], ?_, ?_⟩
    · exact ⟨fun h0 => absurd h0 (structText_ne_empty P e), fun hall => absurd hall hno⟩
    · simp only [h, if_true]
      refine ⟨fun h0 => ?_, fun hall => absurd hall hno⟩
      exact absurd (append_eq_self (Option.some.inj h0)) (structText_ne_empty P e)
  · have hall : ∀ p ∈ e.Dir, p.2.RPC ≠ none := by
      intro p hp hr
      exact h ((any_nonRPC_iff _).2 ⟨p, hp, hr⟩)
    refine ⟨"", by simp [h], ?_, ?_⟩
    · exact ⟨fun _ => hall, fun _ => rfl⟩
    · rw [if_neg h]
      exact ⟨fun _ => hall, fun _ => rfl⟩

/-- C1 at the sample node `rpcOnly`, whose only child is an RPC. -/
theorem C1_no_output_iff_no_nonRPC_child_witness :
    NodupKeys rpcOnly.Dir ∧
    ∃ out : String, FormatStruct samplePkg "x" rpcOnly = some ("x" ++ out) ∧
      (out = "" ↔ ∀ p ∈ rpcOnly.Dir, p.2.RPC ≠ none) ∧
      (FormatStruct samplePkg "x" rpcOnly = some "x" ↔ ∀ p ∈ rpcOnly.Dir, p.2.RPC ≠ none) :=
  ⟨by decide, C1_no_output_iff_no_nonRPC_child samplePkg "x" rpcOnly (by decide)⟩

/-- C2: for a node with a non-RPC child, the field blocks written by `FormatStruct`
are those of a list `cs` of children that is a rearrangement of the children with
a nil `RPC` (each of them once, no RPC child) and whose keys ascend strictly. -/
theorem C2_fields_are_sorted_nonRPC_children (P : Pkg) (w : Writer) (e : Entry)
    (hd : NodupKeys e.Dir) (hne : ∃ p ∈ e.Dir, p.2.RPC = none) :
    ∃ cs : List (String × Entry),
      cs.Perm (e.Dir.filter fun p => p.2.RPC = none) ∧
      (cs.map Prod.fst).Sorted (· < ·) ∧
      FormatStruct P w e = some (w ++ "\n" ++ Spec.commentBlock P "// " e.Description ++
        "struct " ++ P.fixName e.Name ++ " \x7b\n" ++
        Spec.concat (cs.enum.map fun q => Spec.fieldBlock P (q.1 + 1) q.2.1 q.2.2) ++
        "\x7d\n") := by
  refine ⟨Spec.children e, children_perm e, children_keys_sorted hd, ?_⟩
  rw [FormatStruct_of_nonRPC P w e hd hne]
  simp [Spec.structText, Spec.fieldsText, List.enum, String.append_assoc]

/-- C2 at the sample node `device`. -/
theorem C2_fields_are_sorted_nonRPC_children_witness :
    (NodupKeys device.Dir ∧ ∃ p ∈ device.Dir, p.2.RPC = none) ∧
    ∃ cs : List (String × Entry),
      cs.Perm (device.Dir.filter fun p => p.2.RPC = none) ∧
      (cs.map Prod.fst).Sorted (· < ·) ∧
      FormatStruct samplePkg "" device = some ("" ++ "\n" ++
        Spec.commentBlock samplePkg "// " device.Description ++
        "struct " ++ samplePkg.fixName device.Name ++ " \x7b\n" ++
        Spec.concat (cs.enum.map fun q => Spec.fieldBlock samplePkg (q.1 + 1) q.2.1 q.2.2) ++
        "\x7d\n") :=
  ⟨⟨by decide, ("ip-addr", leafIp), List.Mem.head _, rfl⟩,
    C2_fields_are_sorted_nonRPC_children samplePkg "" device (by decide)
      ⟨("ip-addr", leafIp), List.Mem.head _, rfl⟩⟩

/-- C3: for a node with `k` non-RPC children (`k ≥ 1`), the field tags written by
`FormatStruct` are `1, 2, ..., k` in output order: the field line at position `i`
(counted from 1) is four spaces, the decimal rendering of `i` and a colon with a
space, then the rest of the line; `parts` lists, per field, the comment block that
precedes the line and what follows the tag. -/
theorem C3_tags_are_one_to_k (P : Pkg) (w : Writer) (e : Entry)
    (hd : NodupKeys e.Dir) (hne : ∃ p ∈ e.Dir, p.2.RPC = none) :
    ∃ parts : List (String × String),
      parts = (Spec.children e).map (fun p =>
        (Spec.commentBlock P "  // " p.2.Description, Spec.fieldRest P p.1 p.2)) ∧
      parts.length = (e.Dir.filter fun p => p.2.RPC = none).length ∧
      1 ≤ parts.length ∧
      (parts.enum.map fun q => q.1 + 1) =
        List.range' 1 (e.Dir.filter fun p => p.2.RPC = none).length ∧
      FormatStruct P w e = some (w ++ "\n" ++ Spec.commentBlock P "// " e.Description ++
        "struct " ++ P.fixName e.Name ++ " \x7b\n" ++
        Spec.concat (parts.enum.map fun q =>
          q.2.1 ++ ("    " ++ toString (q.1 + 1) ++ ": " ++ q.2.2)) ++
        "\x7d\n") := by
  have hlen : (Spec.children e).length = (e.Dir.filter nonRPC).length :=
    (children_perm e).length_eq
  have hpos : 1 ≤ (e.Dir.filter nonRPC).length := by
    obtain ⟨p, hp, hr⟩ := hne
    have : p ∈ e.Dir.filter nonRPC := List.mem_filter.2 ⟨hp, by simp [nonRPC, hr]⟩
    exact List.length_pos_of_mem this
  refine ⟨_, rfl, ?_, ?_, ?_, ?_⟩
  · rw [List.length_map, hlen]; rfl
  · rw [List.length_map, hlen]; exact hpos
  · rw [List.enum, map_fst_enumFrom, List.length_map, hlen]; rfl
  · rw [FormatStruct_of_nonRPC P w e hd hne]
    simp [Spec.structText, Spec.fieldsText, Spec.fieldBlock, Spec.fieldLine, List.enum,
      enumFrom_map_snd, String.append_assoc, Function.comp_def]

/-- C3 at the sample node `device`. -/
theorem C3_tags_are_one_to_k_witness :
    (NodupKeys device.Dir ∧ ∃ p ∈ device.Dir, p.2.RPC = none) ∧
    ∃ parts : List (String × String),
      parts = (Spec.children device).map (fun p =>
        (Spec.commentBlock samplePkg "  // " p.2.Description,
          Spec.fieldRest samplePkg p.1 p.2)) ∧
      parts.length = (device.Dir.filter fun p => p.2.RPC = none).length ∧
      1 ≤ parts.length ∧
      (parts.enum.map fun q => q.1 + 1) =
        List.range' 1 (device.Dir.filter fun p => p.2.RPC = none).length ∧
      FormatStruct samplePkg "" device = some ("" ++ "\n" ++
        Spec.commentBlock samplePkg "// " device.Description ++
        "struct " ++ samplePkg.fixName device.Name ++ " \x7b\n" ++
        Spec.concat (parts.enum.map fun q =>
          q.2.1 ++ ("    " ++ toString (q.1 + 1) ++ ": " ++ q.2.2)) ++
        "\x7d\n") :=
  ⟨⟨by decide, ("ip-addr", leafIp), List.Mem.head _, rfl⟩,
    C3_tags_are_one_to_k samplePkg "" device (by decide)
      ⟨("ip-addr", leafIp), List.Mem.head _, rfl⟩⟩

/-- C4: the text written by `FormatStruct` does not depend on the order in which
the child map is enumerated: two nodes with the same name and description whose
`Dir` hold the same entries in different orders get the same text. -/
theorem C4_independent_of_enumeration_order (P : Pkg) (w : Writer) (e1 e2 : Entry)
    (hd : NodupKeys e1.Dir) (hname : e1.Name = e2.Name)
    (hdesc : e1.Description = e2.Description) (hperm : e1.Dir.Perm e2.Dir) :
    FormatStruct P w e1 = FormatStruct P w e2 := by
  have hd2 : NodupKeys e2.Dir := (hperm.map _).nodup_iff.1 hd
  rw [FormatStruct_eq P w e1 hd, FormatStruct_eq P w e2 hd2, any_nonRPC_of_perm hperm]
  simp only [Spec.structText, hname, hdesc, children_eq_of_perm hd hperm]

/-- C4 at the sample nodes `device` and `deviceSwapped`, with the text. -/
theorem C4_independent_of_enumeration_order_witness :
    (NodupKeys device.Dir ∧ device.Name = deviceSwapped.Name ∧
      device.Description = deviceSwapped.Description ∧
      device.Dir.Perm deviceSwapped.Dir) ∧
    FormatStruct samplePkg "" device = FormatStruct samplePkg "" deviceSwapped ∧
    FormatStruct samplePkg "" deviceSwapped = some
      "\nstruct Device \x7b\n    1: optional string host_name; // f.yang:3\n    2: list<uint32> ip_addr; // f.yang:4\n\x7d\n" :=
  ⟨⟨by decide, rfl, rfl, List.Perm.swap _ _ _⟩,
    C4_independent_of_enumeration_order samplePkg "" device deviceSwapped (by decide) rfl rfl
      (List.Perm.swap _ _ _), by decide⟩

/-- C5: every field line written by `FormatStruct` has one of two forms: with tag
`i`, type token `T`, field name `f` and source location `s` it is
`    i: list<T> f; // s` for a child with a `ListAttr` and `    i: optional T f; // s`
for a child without, each ended by a newline; the trailing comment is written
whatever `s` is. -/
theorem C5_field_line_format (P : Pkg) (w : Writer) (e : Entry)
    (hd : NodupKeys e.Dir) (hne : ∃ p ∈ e.Dir, p.2.RPC = none) :
    FormatStruct P w e = some (w ++ "\n" ++ Spec.commentBlock P "// " e.Description ++
      "struct " ++ P.fixName e.Name ++ " \x7b\n" ++
      Spec.concat ((Spec.children e).enum.map fun (x, k, se) =>
        Spec.commentBlock P "  // " se.Description ++
        (if se.ListAttr ≠ none then
          "    " ++ toString (x + 1) ++ ": list<" ++ Spec.typeToken P se ++ "> " ++
            Replace k "-" "_" ++ "; // " ++ P.Source se.Node ++ "\n"
        else
          "    " ++ toString (x + 1) ++ ": optional " ++ Spec.typeToken P se ++ " " ++
            Replace k "-" "_" ++ "; // " ++ P.Source se.Node ++ "\n")) ++
      "\x7d\n") := by
  rw [FormatStruct_of_nonRPC P w e hd hne]
  have hf : ∀ (i : Nat) (k : String) (se : Entry), Spec.fieldLine P i k se =
      (if se.ListAttr ≠ none then
        "    " ++ toString i ++ ": list<" ++ Spec.typeToken P se ++ "> " ++
          Replace k "-" "_" ++ "; // " ++ P.Source se.Node ++ "\n"
      else
        "    " ++ toString i ++ ": optional " ++ Spec.typeToken P se ++ " " ++
          Replace k "-" "_" ++ "; // " ++ P.Source se.Node ++ "\n") := by
    intro i k se
    have h1 : ∀ t : String, ": " ++ ("list<" ++ t) = ": list<" ++ t := fun t => by
      rw [← String.append_assoc]; rfl
    have h2 : ∀ t : String, ": " ++ ("optional " ++ t) = ": optional " ++ t := fun t => by
      rw [← String.append_assoc]; rfl
    by_cases hl : se.ListAttr = none <;>
      simp [Spec.fieldLine, Spec.fieldRest, hl, String.append_assoc, h1, h2,
        -String.reduceAppend]
  simp only [Spec.structText, Spec.fieldsText, Spec.fieldBlock, hf, List.enum,
    String.append_assoc]

/-- C5 at the sample node `device`, with the text. -/
theorem C5_field_line_format_witness :
    (NodupKeys device.Dir ∧ ∃ p ∈ device.Dir, p.2.RPC = none) ∧
    FormatStruct samplePkg "" device = some ("" ++ "\n" ++
      Spec.commentBlock samplePkg "// " device.Description ++
      "struct " ++ samplePkg.fixName device.Name ++ " \x7b\n" ++
      Spec.concat ((Spec.children device).enum.map fun (x, k, se) =>
        Spec.commentBlock samplePkg "  // " se.Description ++
        (if se.ListAttr ≠ none then
          "    " ++ toString (x + 1) ++ ": list<" ++ Spec.typeToken samplePkg se ++ "> " ++
            Replace k "-" "_" ++ "; // " ++ samplePkg.Source se.Node ++ "\n"
        else
          "    " ++ toString (x + 1) ++ ": optional " ++ Spec.typeToken samplePkg se ++ " " ++
            Replace k "-" "_" ++ "; // " ++ samplePkg.Source se.Node ++ "\n")) ++
      "\x7d\n") :=
  ⟨⟨by decide, ("ip-addr", leafIp), List.Mem.head _, rfl⟩,
    C5_field_line_format samplePkg "" device (by decide)
      ⟨("ip-addr", leafIp), List.Mem.head _, rfl⟩⟩

/-- C6: the type token of a leaf child is read from `kind2proto` (line 102), the
table declared elsewhere in package `main`, and not from `kind2thrift`: at the
node `device`, whatever the environment, the tokens are the `kind2proto` entries
of the two kinds, so that with a `kind2proto` that maps `Yuint16` to `uint32` the
field reads `list<uint32>` although `kind2thrift` holds `TODO-uint16`. -/
theorem C6_leaf_token_read_from_kind2proto :
    (∀ (P : Pkg) (w : Writer), FormatStruct P w device = some (w ++
      ("\nstruct " ++ P.fixName "Device" ++ " \x7b\n" ++
       "    1: optional " ++ mapIndex P.kind2proto TypeKind.Ystring ++ " host_name; // " ++
         P.Source ⟨3⟩ ++ "\n" ++
       "    2: list<" ++ mapIndex P.kind2proto TypeKind.Yuint16 ++ "> ip_addr; // " ++
         P.Source ⟨4⟩ ++ "\n" ++
       "\x7d\n"))) ∧
    mapIndex kind2thrift TypeKind.Yuint16 = "TODO-uint16" ∧
    mapIndex samplePkg.kind2proto TypeKind.Yuint16 = "uint32" ∧
    FormatStruct samplePkg "" device = some
      "\nstruct Device \x7b\n    1: optional string host_name; // f.yang:3\n    2: list<uint32> ip_addr; // f.yang:4\n\x7d\n" := by
  refine ⟨fun P w => ?_, by decide, by decide, by decide⟩
  rw [FormatStruct_of_nonRPC P w device (by decide) ⟨("ip-addr", leafIp), List.Mem.head _, rfl⟩]
  have h1 : Replace "host-name" "-" "_" = "host_name" := by decide
  have h2 : Replace "ip-addr" "-" "_" = "ip_addr" := by decide
  have h3 : toString (0 + 1) = "1" := by decide
  have h4 : toString (0 + 1 + 1) = "2" := by decide
  have h5 : ("    1: optional " : String) = "    " ++ ("1" ++ (": " ++ "optional ")) := rfl
  have h6 : (" host_name; // " : String) = " " ++ ("host_name" ++ "; // ") := rfl
  have h7 : ("    2: list<" : String) = "    " ++ ("2" ++ (": " ++ "list<")) := rfl
  have h8 : ("> ip_addr; // " : String) = "> " ++ ("ip_addr" ++ "; // ") := rfl
  have h9 : ("\nstruct " : String) = "\n" ++ "struct " := rfl
  simp only [Spec.structText, sample_children_device, Spec.fieldsText, List.enumFrom,
    List.map, Spec.concat, Spec.fieldBlock, Spec.fieldLine, Spec.fieldRest, Spec.typeToken,
    Spec.commentBlock, device, leafHost, leafIp, Entry.Description, Entry.Name,
    Entry.ListAttr, Entry.Dir, Entry.Typ, Entry.Node, h1, h2, h3, h4]
  simp only [ne_eq, not_true_eq_false, if_false, if_true, reduceCtorEq, not_false_eq_true,
    h5, h6, h7, h8, h9, String.append_assoc, String.append_empty, String.empty_append]

/-- C7, refuted as stated: a kind outside the eighteen keys of `kind2thrift`
is looked up to the empty string, so the lookup is not non-empty on every kind. -/
theorem C7_counterexample_unlisted_kind :
    mapIndex kind2thrift (TypeKind.other 0) = "" ∧
    ¬ ∀ k : TypeKind, mapIndex kind2thrift k ≠ "" :=
  ⟨by decide, fun h => h (TypeKind.other 0) (by decide)⟩

/-- C7, amended: on each of its eighteen keys `kind2thrift` yields a non-empty
token that is one of the concrete tokens byte, i16, i32, i64, bool, enum, string
or starts with `TODO-`; on every other kind the lookup yields the empty string. -/
theorem C7_kind2thrift_total_on_its_keys (k : TypeKind)
    (hk : k ∈ kind2thrift.map Prod.fst) :
    mapIndex kind2thrift k ≠ "" ∧
    (mapIndex kind2thrift k ∈ ["byte", "i16", "i32", "i64", "bool", "enum", "string"] ∨
      ∃ rest : String, mapIndex kind2thrift k = "TODO-" ++ rest) ∧
    (kind2thrift.map Prod.fst).length = 18 ∧
    ∀ k2 : TypeKind, k2 ∉ kind2thrift.map Prod.fst → mapIndex kind2thrift k2 = "" := by
  refine ⟨?_, ?_, rfl, ?_⟩
  · cases k <;> first
      | decide
      | exact absurd hk (by simp [kind2thrift])
  · have key : mapIndex kind2thrift k ∈
          ["byte", "i16", "i32", "i64", "bool", "enum", "string"] ∨
        mapIndex kind2thrift k = "TODO-" ++ ⟨(mapIndex kind2thrift k).data.drop 5⟩ := by
      cases k <;> first
        | decide
        | exact absurd hk (by simp [kind2thrift])
    exact key.imp id fun h => ⟨_, h⟩
  · intro k2 h2
    cases k2 <;> first
      | exact absurd (by decide) h2
      | simp [kind2thrift, mapIndex]

/-- C7 amended, at the key `Yuint16`. -/
theorem C7_kind2thrift_total_on_its_keys_witness :
    TypeKind.Yuint16 ∈ kind2thrift.map Prod.fst ∧
    mapIndex kind2thrift TypeKind.Yuint16 ≠ "" ∧
    (mapIndex kind2thrift TypeKind.Yuint16 ∈
        ["byte", "i16", "i32", "i64", "bool", "enum", "string"] ∨
      ∃ rest : String, mapIndex kind2thrift TypeKind.Yuint16 = "TODO-" ++ rest) ∧
    (kind2thrift.map Prod.fst).length = 18 ∧
    ∀ k2 : TypeKind, k2 ∉ kind2thrift.map Prod.fst → mapIndex kind2thrift k2 = "" :=
  ⟨by decide, C7_kind2thrift_total_on_its_keys TypeKind.Yuint16 (by decide)⟩

/-- C8: for a non-RPC child `c` under the key `k` that is a container (a non-empty
`Dir`), the field line of `c` in the text of `FormatStruct` carries `fixName c.Name`
as its type token, whatever `c.Typ` is (so does the pass of the field loop for `k`
at every index), and that is the name in the header `struct <name>` that
`FormatStruct` writes when the child itself is rendered. -/
theorem C8_container_token_is_struct_name (P : Pkg) (e : Entry) (k : String)
    (w : Writer) (c : Entry) (hd : NodupKeys e.Dir) (hc : (k, c) ∈ e.Dir)
    (hr : c.RPC = none) (hdir : c.Dir ≠ []) :
    (∃ (i : Nat) (pre post : String),
      i < (e.Dir.filter fun p => p.2.RPC = none).length ∧
      FormatStruct P w e = some (w ++ pre ++
        (Spec.commentBlock P "  // " c.Description ++
          "    " ++ toString (i + 1) ++ ": " ++
          (if c.ListAttr ≠ none then "list<" ++ P.fixName c.Name ++ "> "
            else "optional " ++ P.fixName c.Name ++ " ") ++
          Replace k "-" "_" ++ "; // " ++ P.Source c.Node ++ "\n") ++ post)) ∧
    (∀ x : Nat, formatField P e x k w = some (w ++
      (Spec.commentBlock P "  // " c.Description ++
        "    " ++ toString (x + 1) ++ ": " ++
        (if c.ListAttr ≠ none then "list<" ++ P.fixName c.Name ++ "> "
          else "optional " ++ P.fixName c.Name ++ " ") ++
        Replace k "-" "_" ++ "; // " ++ P.Source c.Node ++ "\n"))) ∧
    (NodupKeys c.Dir → (∃ p ∈ c.Dir, p.2.RPC = none) →
      FormatStruct P w c = some (w ++ "\n" ++ Spec.commentBlock P "// " c.Description ++
        "struct " ++ P.fixName c.Name ++ " \x7b\n" ++
        Spec.fieldsText P 0 (Spec.children c) ++ "\x7d\n")) := by
  have ht : Spec.typeToken P c = P.fixName c.Name := by
    rcases c with ⟨n, d, dir, r, l, t, nd⟩
    cases dir with
    | nil => exact absurd rfl hdir
    | cons a as => rfl
  have hb : ∀ i : Nat, Spec.fieldBlock P (i + 1) k c =
      Spec.commentBlock P "  // " c.Description ++
        "    " ++ toString (i + 1) ++ ": " ++
        (if c.ListAttr ≠ none then "list<" ++ P.fixName c.Name ++ "> "
          else "optional " ++ P.fixName c.Name ++ " ") ++
        Replace k "-" "_" ++ "; // " ++ P.Source c.Node ++ "\n" := by
    intro i
    by_cases hl : c.ListAttr = none <;>
      simp [Spec.fieldBlock, Spec.fieldLine, Spec.fieldRest, ht, hl, String.append_assoc,
        -String.reduceAppend]
  refine ⟨?_, fun x => ?_, fun hdc hne => ?_⟩
  · obtain ⟨i, pre, post, hi, h⟩ := FormatStruct_block_of_child P w e hd k c hc hr
    exact ⟨i, pre, post, hi, by rw [h, hb]⟩
  · rw [formatField_eq P e x k w c (dirIndex_of_mem hd hc), hb]
  · rw [FormatStruct_of_nonRPC P w c hdc hne]
    simp only [Spec.structText, String.append_assoc]

/-- C8 at the sample nodes: `system`, a container with a type set, under `root`. -/
theorem C8_container_token_is_struct_name_witness :
    (NodupKeys root.Dir ∧ ("system", system) ∈ root.Dir ∧ system.RPC = none ∧
      system.Dir ≠ [] ∧ system.Typ = some ⟨TypeKind.Ystring⟩) ∧
    formatField samplePkg root 0 "system" "" =
      some "  // System group\n    1: optional system system; // f.yang:7\n" ∧
    FormatStruct samplePkg "" root = some
      "\nstruct root \x7b\n  // System group\n    1: optional system system; // f.yang:7\n\x7d\n" ∧
    FormatStruct samplePkg "" system = some
      "\n// System group\nstruct system \x7b\n    1: optional string host_name; // f.yang:3\n\x7d\n" := by
  have h := C8_container_token_is_struct_name samplePkg root "system" "" system
    (by decide) (List.Mem.head _) rfl (by simp [system, Entry.Dir])
  exact ⟨⟨by decide, List.Mem.head _, rfl, by simp [system, Entry.Dir], rfl⟩,
    (h.2.1 0).trans (by decide), by decide, by decide⟩

/-- C9: the field name written for a non-RPC child under the key `k` is `k` with
every hyphen replaced by an underscore and every other character kept: same
length, no hyphen left, and replacing again changes nothing; the child is looked
up under the key as it is in `Dir`, and only the name on the field line is
replaced. -/
theorem C9_field_name_replaces_hyphens (P : Pkg) (e : Entry) (k : String)
    (w : Writer) (c : Entry) (hd : NodupKeys e.Dir) (hc : (k, c) ∈ e.Dir)
    (hr : c.RPC = none) :
    Replace k "-" "_" = ⟨k.data.map fun ch => if ch = '-' then '_' else ch⟩ ∧
    (Replace k "-" "_").length = k.length ∧
    '-' ∉ (Replace k "-" "_").data ∧
    Replace (Replace k "-" "_") "-" "_" = Replace k "-" "_" ∧
    (∃ (i : Nat) (pre post : String),
      i < (e.Dir.filter fun p => p.2.RPC = none).length ∧
      FormatStruct P w e = some (w ++ pre ++
        (Spec.commentBlock P "  // " c.Description ++
          "    " ++ toString (i + 1) ++ ": " ++
          (if c.ListAttr ≠ none then "list<" ++ Spec.typeToken P c ++ "> "
            else "optional " ++ Spec.typeToken P c ++ " ") ++
          String.mk (k.data.map fun ch => if ch = '-' then '_' else ch) ++
          "; // " ++ P.Source c.Node ++ "\n") ++ post)) ∧
    (∀ x : Nat, formatField P e x k w = some (w ++
      (Spec.commentBlock P "  // " c.Description ++
        "    " ++ toString (x + 1) ++ ": " ++
        (if c.ListAttr ≠ none then "list<" ++ Spec.typeToken P c ++ "> "
          else "optional " ++ Spec.typeToken P c ++ " ") ++
        String.mk (k.data.map fun ch => if ch = '-' then '_' else ch) ++
        "; // " ++ P.Source c.Node ++ "\n"))) := by
  have hb : ∀ i : Nat, Spec.fieldBlock P (i + 1) k c =
      Spec.commentBlock P "  // " c.Description ++
        "    " ++ toString (i + 1) ++ ": " ++
        (if c.ListAttr ≠ none then "list<" ++ Spec.typeToken P c ++ "> "
          else "optional " ++ Spec.typeToken P c ++ " ") ++
        String.mk (k.data.map fun ch => if ch = '-' then '_' else ch) ++
        "; // " ++ P.Source c.Node ++ "\n" := by
    intro i
    rw [← Replace_hyphen]
    by_cases hl : c.ListAttr = none <;>
      simp [Spec.fieldBlock, Spec.fieldLine, Spec.fieldRest, hl, String.append_assoc,
        -String.reduceAppend]
  refine ⟨Replace_hyphen k, ?_, ?_, ?_, ?_, fun x => ?_⟩
  · rw [Replace_hyphen]
    show (List.map _ k.data).length = k.data.length
    exact List.length_map _ _
  · rw [Replace_hyphen]
    simp only [List.mem_map, not_exists, not_and]
    intro ch _ h
    by_cases h2 : ch = '-'
    · rw [if_pos h2] at h; exact absurd h (by decide)
    · rw [if_neg h2] at h; exact h2 h
  · rw [Replace_hyphen, Replace_hyphen]
    congr 1
    simp only [List.map_map]
    apply List.map_congr_left
    intro ch _
    by_cases h2 : ch = '-'
    · simp [h2]
    · simp [h2]
  · obtain ⟨i, pre, post, hi, h⟩ := FormatStruct_block_of_child P w e hd k c hc hr
    exact ⟨i, pre, post, hi, by rw [h, hb]⟩
  · rw [formatField_eq P e x k w c (dirIndex_of_mem hd hc), hb]

/-- C9 at the sample node `twins`, whose keys `a-b` and `a_b` differ only by the
replaced character: the pass for `a-b` renders the child stored under `a-b`. -/
theorem C9_field_name_replaces_hyphens_witness :
    (NodupKeys twins.Dir ∧ ("a-b", leafIp) ∈ twins.Dir ∧ leafIp.RPC = none) ∧
    Replace "a-b" "-" "_" = "a_b" ∧
    formatField samplePkg twins 0 "a-b" "" = some "    1: list<uint32> a_b; // f.yang:4\n" ∧
    FormatStruct samplePkg "" twins = some
      "\nstruct twins \x7b\n    1: list<uint32> a_b; // f.yang:4\n    2: optional string a_b; // f.yang:3\n\x7d\n" := by
  have h := C9_field_name_replaces_hyphens samplePkg twins "a-b" "" leafIp
    (by decide) (List.Mem.tail _ (List.Mem.head _)) rfl
  exact ⟨⟨by decide, List.Mem.tail _ (List.Mem.head _), rfl⟩, h.1.trans (by decide),
    (h.2.2.2.2.2 0).trans (by decide), by decide⟩

/-- C10: for a node with a non-RPC child, the text written by `FormatStruct` is
one blank line, then the description block (nothing for an empty description),
then the header line `struct <fixName e.Name>` with its opening brace, once, then
the field blocks (one per non-RPC child, at least one), then the closing brace
on a line of its own, right after the last field block. -/
theorem C10_struct_frame (P : Pkg) (w : Writer) (e : Entry)
    (hd : NodupKeys e.Dir) (hne : ∃ p ∈ e.Dir, p.2.RPC = none) :
    ∃ fields : List String,
      fields = (Spec.children e).enum.map (fun q => Spec.fieldBlock P (q.1 + 1) q.2.1 q.2.2) ∧
      fields.length = (e.Dir.filter fun p => p.2.RPC = none).length ∧
      1 ≤ fields.length ∧
      FormatStruct P w e = some (w ++ "\n" ++
        (if e.Description = "" then "" else P.indentWrite "// " (e.Description ++ "\n")) ++
        "struct " ++ P.fixName e.Name ++ " \x7b\n" ++
        Spec.concat fields ++
        "\x7d\n") := by
  have hlen : (Spec.children e).length = (e.Dir.filter nonRPC).length :=
    (children_perm e).length_eq
  have hpos : 1 ≤ (e.Dir.filter nonRPC).length := by
    obtain ⟨p, hp, hr⟩ := hne
    have : p ∈ e.Dir.filter nonRPC := List.mem_filter.2 ⟨hp, by simp [nonRPC, hr]⟩
    exact List.length_pos_of_mem this
  refine ⟨_, rfl, ?_, ?_, ?_⟩
  · rw [List.length_map, List.enum_length, hlen]; rfl
  · rw [List.length_map, List.enum_length, hlen]; exact hpos
  · rw [FormatStruct_of_nonRPC P w e hd hne]
    simp only [Spec.structText, Spec.fieldsText, Spec.commentBlock, List.enum,
      String.append_assoc]

/-- C10 at the sample node `system`, which has a description, with the text. -/
theorem C10_struct_frame_witness :
    (NodupKeys system.Dir ∧ ∃ p ∈ system.Dir, p.2.RPC = none) ∧
    (∃ fields : List String,
      fields = (Spec.children system).enum.map
        (fun q => Spec.fieldBlock samplePkg (q.1 + 1) q.2.1 q.2.2) ∧
      fields.length = (system.Dir.filter fun p => p.2.RPC = none).length ∧
      1 ≤ fields.length ∧
      FormatStruct samplePkg "" system = some ("" ++ "\n" ++
        (if system.Description = "" then ""
          else samplePkg.indentWrite "// " (system.Description ++ "\n")) ++
        "struct " ++ samplePkg.fixName system.Name ++ " \x7b\n" ++
        Spec.concat fields ++
        "\x7d\n")) ∧
    FormatStruct samplePkg "" system = some
      "\n// System group\nstruct system \x7b\n    1: optional string host_name; // f.yang:3\n\x7d\n" :=
  ⟨⟨by decide, ("host-name", leafHost), List.Mem.head _, rfl⟩,
    C10_struct_frame samplePkg "" system (by decide)
      ⟨("host-name", leafHost), List.Mem.head _, rfl⟩,
    by decide⟩

/-! ## Lemmas on `doThrift`, `flatten` and the indenting writer -/

theorem dirIndex_isSome_of_key {dir : List (String × Entry)} {k : String}
    (h : k ∈ dir.map Prod.fst) : ∃ se, dirIndex dir k = some se := by
  induction dir with
  | nil => simp at h
  | cons p rest ih =>
    obtain ⟨k', se'⟩ := p
    by_cases hk : k' = k
    · exact ⟨se', by simp [dirIndex, hk]⟩
    · have h2 : k ∈ rest.map Prod.fst := by
        rcases List.mem_cons.1 h with h3 | h3
        · exact absurd h3.symm hk
        · exact h3
      obtain ⟨se, hse⟩ := ih h2
      exact ⟨se, by simp [dirIndex, hk, hse]⟩

theorem formatFields_appends (P : Pkg) (e : Entry) (names : List String)
    (h : ∀ k ∈ names, ∃ se, dirIndex e.Dir k = some se) (x : Nat) :
    ∃ out : String, ∀ w : Writer, formatFields P e x names w = some (w ++ out) := by
  induction names generalizing x with
  | nil => exact ⟨"", fun w => by simp [formatFields]⟩
  | cons k rest ih =>
    obtain ⟨se, hse⟩ := h k (List.mem_cons_self _ _)
    obtain ⟨out, hout⟩ := ih (fun q hq => h q (List.mem_cons_of_mem _ hq)) (x + 1)
    refine ⟨Spec.fieldBlock P (x + 1) k se ++ out, fun w => ?_⟩
    simp only [formatFields, formatField_eq P e x k w se hse, hout, String.append_assoc]

theorem FormatStruct_appends (P : Pkg) (e : Entry) :
    ∃ out : String, ∀ w : Writer, FormatStruct P w e = some (w ++ out) := by
  by_cases h0 : (collectNames e.Dir []).length = 0
  · exact ⟨"", fun w => by simp [FormatStruct, h0]⟩
  · have hkeys : ∀ k ∈ sortStrings (collectNames e.Dir []),
        ∃ se, dirIndex e.Dir k = some se := by
      intro k hk
      have h1 : k ∈ collectNames e.Dir [] := (List.perm_insertionSort _ _).mem_iff.1 hk
      rw [collectNames_nil] at h1
      exact dirIndex_isSome_of_key ((List.filter_sublist _).map _ |>.subset h1)
    obtain ⟨out, hout⟩ := formatFields_appends P e _ hkeys 0
    refine ⟨"\n" ++ (if e.Description ≠ "" then P.indentWrite "// " (e.Description ++ "\n")
      else "") ++ "struct " ++ P.fixName e.Name ++ " \x7b\n" ++ out ++ "\x7d\n", fun w => ?_⟩
    unfold FormatStruct
    simp only [h0, if_false, hout]
    have hb : ("\x7d" ++ "\n" : String) = "\x7d\n" := rfl
    by_cases hdesc : e.Description = "" <;>
      simp [hdesc, hb, Fprint, Fprintln, String.append_assoc, -String.reduceAppend]

theorem FormatStruct_written (P : Pkg) (w : Writer) (e : Entry) :
    FormatStruct P w e = some (w ++ Spec.written P e) := by
  obtain ⟨out, hout⟩ := FormatStruct_appends P e
  have h : Spec.written P e = out := by
    simp [Spec.written, hout ""]
  rw [h, hout w]

theorem FormatStruct_of_allRPC (P : Pkg) (w : Writer) (e : Entry)
    (h : ∀ p ∈ e.Dir, p.2.RPC ≠ none) : FormatStruct P w e = some w := by
  have h0 : e.Dir.filter nonRPC = [] := by
    rw [List.filter_eq_nil_iff]
    intro p hp
    simpa [nonRPC] using h p hp
  have hc : collectNames e.Dir [] = [] := by rw [collectNames_nil, h0]; rfl
  simp [FormatStruct, hc]

theorem written_of_allRPC (P : Pkg) (e : Entry) (h : ∀ p ∈ e.Dir, p.2.RPC ≠ none) :
    Spec.written P e = "" := by
  simp [Spec.written, FormatStruct_of_allRPC P "" e h]

theorem formatAll_eq (P : Pkg) (es : List Entry) (w : Writer) :
    formatAll P es w = some (w ++ Spec.concat (es.map (Spec.written P))) := by
  induction es generalizing w with
  | nil => simp [formatAll, Spec.concat]
  | cons e es ih =>
    simp only [formatAll, FormatStruct_written P w e, ih, List.map_cons, Spec.concat,
      String.append_assoc]

theorem doThrift_eq (P : Pkg) (fl : Entry → List Entry) (w : Writer) (roots : List Entry) :
    doThrift P fl w roots = some (w ++
      Spec.concat (roots.map fun r => Spec.concat ((fl r).map (Spec.written P)))) := by
  induction roots generalizing w with
  | nil => simp [doThrift, Spec.concat]
  | cons r roots ih =>
    simp only [doThrift, formatAll_eq, ih, List.map_cons, Spec.concat, String.append_assoc]

theorem flatten_eq (e : Entry) : flatten e = e :: flattenDir e.Dir := by
  cases e; simp [flatten, Entry.Dir]

theorem flattenDir_append (l1 l2 : List (String × Entry)) :
    flattenDir (l1 ++ l2) = flattenDir l1 ++ flattenDir l2 := by
  induction l1 with
  | nil => simp [flattenDir]
  | cons p rest ih =>
    obtain ⟨k, c⟩ := p
    simp [flattenDir, ih]

theorem size_eq (e : Entry) : e.size = 1 + sizeDir e.Dir := by
  cases e; simp [Entry.size, Entry.Dir]

mutual
theorem length_flatten : ∀ e : Entry, (flatten e).length = e.size
  | .mk n d dir r l t nd => by
    simp only [flatten, Entry.size, List.length_cons, length_flattenDir dir]
    omega
theorem length_flattenDir : ∀ dir : List (String × Entry),
    (flattenDir dir).length = sizeDir dir
  | [] => rfl
  | (_, c) :: rest => by
    simp only [flattenDir, sizeDir, List.length_append, length_flatten c,
      length_flattenDir rest]
end

theorem splitLines_ne_nil (cs : List Char) : splitLines cs ≠ [] := by
  cases cs with
  | nil => simp [splitLines]
  | cons c cs =>
    by_cases h : c = '\n'
    · simp [splitLines, h]
    · cases h2 : splitLines cs <;> simp [splitLines, h, h2]

theorem linesAfter_snoc (cs : List Char) :
    linesAfter (cs ++ ['\n']) = (splitLines cs).map (· ++ ['\n']) := by
  induction cs with
  | nil => simp [linesAfter, splitLines]
  | cons c cs ih =>
    by_cases h : c = '\n'
    · simp [linesAfter, splitLines, h, ih]
    · cases h2 : splitLines cs with
      | nil => exact absurd h2 (splitLines_ne_nil cs)
      | cons l ls =>
        have ih2 : linesAfter (cs.append ['\n']) =
            (l ++ ['\n']) :: ls.map (· ++ ['\n']) := by
          rw [← List.map_cons (· ++ ['\n']) l ls, ← h2]; exact ih
        simp only [List.cons_append, linesAfter, splitLines, h, if_false, h2,
          List.map_cons, ih2]

theorem concat_map_congr {α : Type} (f g : α → String) (l : List α)
    (h : ∀ a ∈ l, f a = g a) : Spec.concat (l.map f) = Spec.concat (l.map g) := by
  rw [List.map_congr_left h]

theorem indentWrite_lines (pre d : String) :
    indentWrite pre (d ++ "\n") =
      Spec.concat ((descLines d).map fun l => pre ++ l ++ "\n") := by
  have h : (d ++ "\n").data = d.data ++ ['\n'] := rfl
  simp only [indentWrite, h, linesAfter_snoc, descLines, List.map_map]
  apply concat_map_congr
  intro l _
  simp only [Function.comp_apply, String.append_assoc]
  rfl

theorem joinLines_splitLines (cs : List Char) :
    joinLines ((splitLines cs).map String.mk) = String.mk cs := by
  induction cs with
  | nil => rfl
  | cons c cs ih =>
    cases h2 : splitLines cs with
    | nil => exact absurd h2 (splitLines_ne_nil cs)
    | cons l ls =>
      rw [h2] at ih
      by_cases h : c = '\n'
      · subst h
        simp only [splitLines, if_true, h2, List.map_cons, joinLines]
        simp only [List.map_cons] at ih
        rw [ih]
        rfl
      · simp only [splitLines, h, if_false, h2, List.map_cons]
        cases ls with
        | nil =>
          simp only [List.map_nil, joinLines] at ih ⊢
          have hl : l = cs := by injection ih
          rw [hl]
        | cons m ms =>
          simp only [List.map_cons, joinLines] at ih ⊢
          apply String.ext
          have h3 := congrArg String.data ih
          simp only [String.data_append] at h3 ⊢
          rw [← h3]
          rfl

theorem joinLines_descLines (d : String) : joinLines (descLines d) = d :=
  joinLines_splitLines d.data

theorem splitLines_no_newline (cs : List Char) : ∀ l ∈ splitLines cs, '\n' ∉ l := by
  induction cs with
  | nil => simp [splitLines]
  | cons c cs ih =>
    cases h2 : splitLines cs with
    | nil => exact absurd h2 (splitLines_ne_nil cs)
    | cons l ls =>
      rw [h2] at ih
      by_cases h : c = '\n'
      · intro l' hl'
        simp only [splitLines, h, if_true, h2, List.mem_cons] at hl'
        rcases hl' with h3 | h3 | h3
        · subst h3; simp
        · subst h3; exact ih l' (List.mem_cons_self _ _)
        · exact ih l' (List.mem_cons_of_mem _ h3)
      · intro l' hl'
        simp only [splitLines, h, if_false, h2, List.mem_cons] at hl'
        rcases hl' with h3 | h3
        · subst h3
          intro hmem
          rcases List.mem_cons.1 hmem with h4 | h4
          · exact h h4.symm
          · exact ih l (List.mem_cons_self _ _) h4
        · exact ih l' (List.mem_cons_of_mem _ h3)

theorem descLines_no_newline (d : String) : ∀ l ∈ descLines d, '\n' ∉ l.data := by
  intro l hl
  obtain ⟨cs, hcs, rfl⟩ := List.mem_map.1 hl
  exact splitLines_no_newline d.data cs hcs

theorem stripLine_comment (pre l : String) :
    stripLine pre.length (pre ++ l ++ "\n") = l := by
  have h : (pre ++ l ++ "\n").data = pre.data ++ (l.data ++ ['\n']) := by
    simp [String.data_append]
  simp only [stripLine, h, String.length, List.drop_left, List.dropLast_concat]

theorem stripLine_comments (pre : String) (ls : List String) :
    (ls.map fun l => pre ++ l ++ "\n").map (stripLine pre.length) = ls := by
  simp only [List.map_map]
  conv_rhs => rw [← List.map_id ls]
  apply List.map_congr_left
  intro l _
  exact stripLine_comment pre l

theorem formatField_congr (P : Pkg) {e1 e2 : Entry} (h : e1.Dir = e2.Dir) (x : Nat)
    (k : String) (w : Writer) : formatField P e1 x k w = formatField P e2 x k w := by
  unfold formatField
  rw [h]

theorem formatFields_congr (P : Pkg) {e1 e2 : Entry} (h : e1.Dir = e2.Dir)
    (names : List String) (x : Nat) (w : Writer) :
    formatFields P e1 x names w = formatFields P e2 x names w := by
  induction names generalizing x w with
  | nil => rfl
  | cons k rest ih =>
    simp only [formatFields, formatField_congr P h x k w]
    cases formatField P e2 x k w with
    | none => rfl
    | some w2 => exact ih (x + 1) w2

theorem FormatStruct_congr (P : Pkg) (e1 e2 : Entry) (hn : e1.Name = e2.Name)
    (hdesc : e1.Description = e2.Description) (h : e1.Dir = e2.Dir) (w : Writer) :
    FormatStruct P w e1 = FormatStruct P w e2 := by
  unfold FormatStruct
  simp only [hn, hdesc, h, formatFields_congr P h]

/-! ## The claims on descriptions, `doThrift` and `flatten` -/

/-- C11: for a rendered node with an empty description nothing stands between the
leading blank line and the struct header; with the indenting writer as the spec
describes it, a description is written as one comment line per line of the
description, in order, each made of `// `, the line and a newline, so that
stripping the prefixes and newlines gives back the lines of the description. -/
theorem C11_description_block (P : Pkg) (w : Writer) (e : Entry)
    (hd : NodupKeys e.Dir) (hne : ∃ p ∈ e.Dir, p.2.RPC = none) :
    (e.Description = "" →
      FormatStruct P w e = some (w ++ "\n" ++ "struct " ++ P.fixName e.Name ++ " \x7b\n" ++
        Spec.fieldsText P 0 (Spec.children e) ++ "\x7d\n")) ∧
    (P.indentWrite = indentWrite → e.Description ≠ "" →
      FormatStruct P w e = some (w ++ "\n" ++
        Spec.concat ((descLines e.Description).map fun l => "// " ++ l ++ "\n") ++
        "struct " ++ P.fixName e.Name ++ " \x7b\n" ++
        Spec.fieldsText P 0 (Spec.children e) ++ "\x7d\n")) ∧
    joinLines (descLines e.Description) = e.Description ∧
    (∀ l ∈ descLines e.Description, '\n' ∉ l.data) ∧
    ((descLines e.Description).map fun l => "// " ++ l ++ "\n").map (stripLine 3) =
      descLines e.Description := by
  refine ⟨fun h0 => ?_, fun hI h0 => ?_, joinLines_descLines _, descLines_no_newline _,
    stripLine_comments "// " _⟩
  · rw [FormatStruct_of_nonRPC P w e hd hne]
    simp [Spec.structText, Spec.commentBlock, h0, String.append_assoc,
      -String.reduceAppend]
  · rw [FormatStruct_of_nonRPC P w e hd hne]
    simp [Spec.structText, Spec.commentBlock, h0, hI, indentWrite_lines,
      String.append_assoc, -String.reduceAppend]

/-- C11 at the sample node `noted`, whose description has two lines. -/
theorem C11_description_block_witness :
    (NodupKeys noted.Dir ∧ (∃ p ∈ noted.Dir, p.2.RPC = none) ∧
      specPkg.indentWrite = indentWrite ∧ noted.Description ≠ "") ∧
    descLines noted.Description = ["System group.", "Second line."] ∧
    FormatStruct specPkg "" noted = some ("" ++ "\n" ++
      Spec.concat ((descLines noted.Description).map fun l => "// " ++ l ++ "\n") ++
      "struct " ++ specPkg.fixName noted.Name ++ " \x7b\n" ++
      Spec.fieldsText specPkg 0 (Spec.children noted) ++ "\x7d\n") ∧
    FormatStruct specPkg "" noted = some
      "\n// System group.\n// Second line.\nstruct system \x7b\n  // Name of the host.\n  // As configured.\n    1: optional string host_name; // f.yang:3\n\x7d\n" :=
  ⟨⟨by decide, ⟨("host-name", leafNoted), List.Mem.head _, rfl⟩, rfl, by decide⟩,
    by decide,
    (C11_description_block specPkg "" noted (by decide)
      ⟨("host-name", leafNoted), List.Mem.head _, rfl⟩).2.1 rfl (by decide),
    by decide⟩

/-- C13, refuted as stated: the comment lines before a field line start with two
spaces, not with the four spaces of the field line. -/
theorem C13_counterexample_two_spaces :
    FormatStruct specPkg "" noted = some
      "\n// System group.\n// Second line.\nstruct system \x7b\n  // Name of the host.\n  // As configured.\n    1: optional string host_name; // f.yang:3\n\x7d\n" ∧
    FormatStruct specPkg "" noted ≠ some
      "\n// System group.\n// Second line.\nstruct system \x7b\n    // Name of the host.\n    // As configured.\n    1: optional string host_name; // f.yang:3\n\x7d\n" := by
  constructor <;> decide

/-- C13, amended: with the indenting writer as the spec describes it, each line of
a non-empty description of a rendered child is written right before the field
line of the child as a comment line made of two spaces, `// `, the description
line and a newline; the field line that follows starts with four spaces. -/
theorem C13_child_comment_lines (P : Pkg) (w : Writer) (e : Entry) (k : String) (c : Entry)
    (hd : NodupKeys e.Dir) (hc : (k, c) ∈ e.Dir) (hr : c.RPC = none)
    (hI : P.indentWrite = indentWrite) (hdesc : c.Description ≠ "") :
    ∃ (i : Nat) (pre post : String),
      i < (e.Dir.filter fun p => p.2.RPC = none).length ∧
      FormatStruct P w e = some (w ++ pre ++
        (Spec.concat ((descLines c.Description).map fun l => "  // " ++ l ++ "\n") ++
          ("    " ++ toString (i + 1) ++ ": " ++ Spec.fieldRest P k c)) ++ post) := by
  obtain ⟨i, pre, post, hi, h⟩ := FormatStruct_block_of_child P w e hd k c hc hr
  refine ⟨i, pre, post, hi, ?_⟩
  rw [h]
  simp [Spec.fieldBlock, Spec.commentBlock, Spec.fieldLine, hdesc, hI, indentWrite_lines,
    String.append_assoc, -String.reduceAppend]

/-- C13 amended, at the sample node `noted` and its child `leafNoted`. -/
theorem C13_child_comment_lines_witness :
    (NodupKeys noted.Dir ∧ ("host-name", leafNoted) ∈ noted.Dir ∧ leafNoted.RPC = none ∧
      specPkg.indentWrite = indentWrite ∧ leafNoted.Description ≠ "") ∧
    descLines leafNoted.Description = ["Name of the host.", "As configured."] ∧
    ∃ (i : Nat) (pre post : String),
      i < (noted.Dir.filter fun p => p.2.RPC = none).length ∧
      FormatStruct specPkg "" noted = some ("" ++ pre ++
        (Spec.concat ((descLines leafNoted.Description).map fun l => "  // " ++ l ++ "\n") ++
          ("    " ++ toString (i + 1) ++ ": " ++
            Spec.fieldRest specPkg "host-name" leafNoted)) ++ post) :=
  ⟨⟨by decide, List.Mem.head _, rfl, rfl, by decide⟩, by decide,
    C13_child_comment_lines specPkg "" noted "host-name" leafNoted (by decide)
      (List.Mem.head _) rfl rfl (by decide)⟩

/-- C16: the text written by `doThrift` is the concatenation, over the roots in
order, of the concatenation, over the flattened list of the root in order, of the
text that `FormatStruct` writes for each node, and nothing else; so the text for
`xs ++ ys` is that for `xs` followed by that for `ys`, the empty list writes
nothing, and a node without a non-RPC child leaves the text of the nodes around
it as it is. -/
theorem C16_doThrift_concatenates (P : Pkg) (fl : Entry → List Entry) (w : Writer)
    (xs ys : List Entry) (r : Entry) (l1 l2 : List Entry) (n : Entry)
    (hfl : fl r = l1 ++ n :: l2) (hn : ∀ p ∈ n.Dir, p.2.RPC ≠ none) :
    (∀ (e : Entry) (w1 : Writer), FormatStruct P w1 e = some (w1 ++ Spec.written P e)) ∧
    doThrift P fl w xs = some (w ++
      Spec.concat (xs.map fun r => Spec.concat ((fl r).map (Spec.written P)))) ∧
    doThrift P fl w (xs ++ ys) = some (w ++
      Spec.concat (xs.map fun r => Spec.concat ((fl r).map (Spec.written P))) ++
      Spec.concat (ys.map fun r => Spec.concat ((fl r).map (Spec.written P)))) ∧
    doThrift P fl w [] = some w ∧
    FormatStruct P w n = some w ∧
    doThrift P fl w [r] = some (w ++ Spec.concat (l1.map (Spec.written P)) ++
      Spec.concat (l2.map (Spec.written P))) := by
  refine ⟨fun e w1 => FormatStruct_written P w1 e, doThrift_eq P fl w xs, ?_, rfl,
    FormatStruct_of_allRPC P w n hn, ?_⟩
  · rw [doThrift_eq, List.map_append, concat_append, String.append_assoc]
  · rw [doThrift_eq]
    simp only [List.map_cons, List.map_nil, Spec.concat, hfl, List.map_append, concat_append,
      written_of_allRPC P n hn, String.append_assoc, String.append_empty, String.empty_append]

/-- C16 at the sample tree `forest`, whose child `rpcOnly` has only an RPC child. -/
theorem C16_doThrift_concatenates_witness :
    (flatten forest = [forest] ++ rpcOnly :: [rpcReset, system, leafHost, leafIp] ∧
      ∀ p ∈ rpcOnly.Dir, p.2.RPC ≠ none) ∧
    doThrift samplePkg flatten "" [forest] = some ("" ++
      Spec.concat ([forest].map (Spec.written samplePkg)) ++
      Spec.concat ([rpcReset, system, leafHost, leafIp].map (Spec.written samplePkg))) ∧
    doThrift samplePkg flatten "" [forest] = some
      "\nstruct top \x7b\n    1: list<uint32> ip_addr; // f.yang:4\n  // operations\n    2: optional ops ops; // f.yang:6\n  // System group\n    3: optional system system; // f.yang:7\n\x7d\n\n// System group\nstruct system \x7b\n    1: optional string host_name; // f.yang:3\n\x7d\n" := by
  have hn : ∀ p ∈ rpcOnly.Dir, p.2.RPC ≠ none := by
    intro p hp
    simp only [rpcOnly, Entry.Dir, List.mem_singleton] at hp
    subst hp
    simp [rpcReset, Entry.RPC]
  exact ⟨⟨rfl, hn⟩,
    (C16_doThrift_concatenates samplePkg flatten "" [] [] forest [forest]
      [rpcReset, system, leafHost, leafIp] rpcOnly rfl hn).2.2.2.2.2,
    by set_option maxRecDepth 8000 in decide⟩

/-- C17: the flattened list of a tree is its depth-first pre-order listing, nothing
filtered: it starts with the root (a node without children gives a list of
length one), it has one entry per node of the tree, and for a child `c` between
the earlier children `l1` and the later children `l2` the nodes of the subtree of
`c` stand together, after the root and the subtrees of `l1`, before those of `l2`. -/
theorem C17_flatten_preorder (e : Entry) (l1 l2 : List (String × Entry)) (k : String)
    (c : Entry) (hsplit : e.Dir = l1 ++ (k, c) :: l2) :
    (flatten e).head? = some e ∧
    (∀ e0 : Entry, e0.Dir = [] → flatten e0 = [e0]) ∧
    flatten e = e :: (flattenDir l1 ++ (flatten c ++ flattenDir l2)) ∧
    (flatten c).head? = some c ∧
    (flatten e).length = e.size ∧
    (flatten c).length = c.size ∧
    e.size = 1 + (sizeDir l1 + (c.size + sizeDir l2)) := by
  refine ⟨by rw [flatten_eq]; rfl, fun e0 h0 => by rw [flatten_eq, h0]; rfl, ?_,
    by rw [flatten_eq]; rfl, length_flatten e, length_flatten c, ?_⟩
  · rw [flatten_eq, hsplit, flattenDir_append]; rfl
  · rw [← length_flatten e, flatten_eq, hsplit, flattenDir_append]
    simp only [flattenDir, List.length_cons, List.length_append, length_flattenDir,
      length_flatten]
    omega

/-- C17 at the sample tree `forest` and its second child `system`. -/
theorem C17_flatten_preorder_witness :
    forest.Dir = [("ops", rpcOnly)] ++ ("system", system) :: [("ip-addr", leafIp)] ∧
    flatten forest =
      forest :: (flattenDir [("ops", rpcOnly)] ++
        (flatten system ++ flattenDir [("ip-addr", leafIp)])) ∧
    (flatten forest).map Entry.Name =
      ["top", "ops", "reset", "system", "host-name", "ip-addr"] ∧
    (flatten forest).length = forest.size :=
  ⟨rfl, (C17_flatten_preorder forest [("ops", rpcOnly)] [("ip-addr", leafIp)] "system"
      system rfl).2.2.1, by decide,
    (C17_flatten_preorder forest [("ops", rpcOnly)] [("ip-addr", leafIp)] "system"
      system rfl).2.2.2.2.1⟩

/-- C18, refuted as stated: the node `rpcWithLeaf` is an RPC entry with a child
that is not one, and `FormatStruct` writes a struct for it. -/
theorem C18_counterexample_rpc_with_child :
    rpcWithLeaf.RPC ≠ none ∧
    FormatStruct samplePkg "" rpcWithLeaf = some
      "\nstruct reset \x7b\n    1: optional string host_name; // f.yang:3\n\x7d\n" ∧
    FormatStruct samplePkg "" rpcWithLeaf ≠ some "" := by
  refine ⟨by decide, by decide, by decide⟩

/-- C18, amended: `FormatStruct` never reads the `RPC` of the node it renders: the
result is the same for every value of that field; a node, RPC entry or not,
gets no text when none of its children has a nil `RPC`, in particular when it has
no children. -/
theorem C18_rpc_of_node_not_read (P : Pkg) (w : Writer) (n d : String)
    (dir : List (String × Entry)) (r r2 : Option RPCEntry) (l : Option ListAttr)
    (t : Option YangType) (nd : Node) (hall : ∀ p ∈ dir, p.2.RPC ≠ none) :
    FormatStruct P w (.mk n d dir r l t nd) = some w ∧
    (∀ dir2 : List (String × Entry),
      FormatStruct P w (.mk n d dir2 r l t nd) = FormatStruct P w (.mk n d dir2 r2 l t nd)) :=
  ⟨FormatStruct_of_allRPC P w _ hall, fun dir2 =>
    FormatStruct_congr P (.mk n d dir2 r l t nd) (.mk n d dir2 r2 l t nd) rfl rfl rfl w⟩

/-- C18 amended, at the sample RPC entry `rpcReset`, which has no children. -/
theorem C18_rpc_of_node_not_read_witness :
    (∀ p ∈ ([] : List (String × Entry)), p.2.RPC ≠ none) ∧
    rpcReset = .mk "reset" "" [] (some ⟨⟩) none none ⟨5⟩ ∧
    FormatStruct samplePkg "x" (.mk "reset" "" [] (some ⟨⟩) none none ⟨5⟩) = some "x" :=
  ⟨fun _ h => absurd h (List.not_mem_nil _), rfl,
    (C18_rpc_of_node_not_read samplePkg "x" "reset" "" [] (some ⟨⟩) none none none ⟨5⟩
      (fun _ h => absurd h (List.not_mem_nil _))).1⟩

/-! ## The claims on empty containers, the Device scenario and field names -/

theorem sample_children_deviceTwo :
    Spec.children deviceTwo = [("host-name", leafHost), ("ip-addr", leafIp)] := by
  rfl

theorem sample_children_twins :
    Spec.children twins = [("a-b", leafIp), ("a_b", leafHost)] := by
  rfl

theorem fieldBlock_optional (P : Pkg) (i : Nat) (k : String) (c : Entry)
    (hdesc : c.Description = "") (hl : c.ListAttr = none) :
    Spec.fieldBlock P i k c = "    " ++ (toString i ++ (": optional " ++
      (Spec.typeToken P c ++ (" " ++ (Replace k "-" "_" ++ ("; // " ++
        (P.Source c.Node ++ "\n"))))))) := by
  have h : (": optional " : String) = ": " ++ "optional " := rfl
  simp [Spec.fieldBlock, Spec.commentBlock, Spec.fieldLine, Spec.fieldRest, hdesc, hl, h,
    String.append_assoc, -String.reduceAppend]

theorem fieldBlock_list (P : Pkg) (i : Nat) (k : String) (c : Entry)
    (hdesc : c.Description = "") (hl : c.ListAttr ≠ none) :
    Spec.fieldBlock P i k c = "    " ++ (toString i ++ (": list<" ++
      (Spec.typeToken P c ++ ("> " ++ (Replace k "-" "_" ++ ("; // " ++
        (P.Source c.Node ++ "\n"))))))) := by
  have h : (": list<" : String) = ": " ++ "list<" := rfl
  simp [Spec.fieldBlock, Spec.commentBlock, Spec.fieldLine, Spec.fieldRest, hdesc, hl, h,
    String.append_assoc, -String.reduceAppend]

/-- C15, refuted as stated: `host-name` sorts before `ip-addr`, so field 1 is
`host_name` and field 2 is `ip_addr`, even in an environment whose `kind2proto`
holds the entries of `kind2thrift`. -/
theorem C15_counterexample_field_order :
    "host-name".data < "ip-addr".data ∧
    FormatStruct thriftPkg "" deviceTwo = some
      "\nstruct Device \x7b\n    1: optional string host_name; // f.yang:3\n    2: list<TODO-uint16> ip_addr; // f.yang:4\n\x7d\n" ∧
    FormatStruct thriftPkg "" deviceTwo ≠ some
      "\nstruct Device \x7b\n    1: list<TODO-uint16> ip_addr; // f.yang:4\n    2: optional string host_name; // f.yang:3\n\x7d\n" := by
  refine ⟨by decide, by decide, by decide⟩

/-- C15, amended: for the container `Device` with the two children `host-name` (a
string leaf, no list) and `ip-addr` (a 16-bit unsigned leaf, a list), and a
`fixName` that keeps the name `Device`, the text is the struct `Device` whose
field 1 is `1: optional T1 host_name;` and whose field 2 is `2: list<T2> ip_addr;`
(`host-name` sorts before `ip-addr`), followed by the closing brace; `T1` and `T2`
are the type tokens resolved for the two leaves. -/
theorem C15_device_scenario (P : Pkg) (w : Writer) (hfix : P.fixName "Device" = "Device") :
    FormatStruct P w deviceTwo = some (w ++
      ("\nstruct Device \x7b\n" ++
       "    1: optional " ++ Spec.typeToken P leafHost ++ " host_name; // " ++
         P.Source ⟨3⟩ ++ "\n" ++
       "    2: list<" ++ Spec.typeToken P leafIp ++ "> ip_addr; // " ++
         P.Source ⟨4⟩ ++ "\n" ++
       "\x7d\n")) := by
  rw [FormatStruct_of_nonRPC P w deviceTwo (by decide)
    ⟨("host-name", leafHost), List.Mem.head _, rfl⟩]
  have h1 : Replace "host-name" "-" "_" = "host_name" := by decide
  have h2 : Replace "ip-addr" "-" "_" = "ip_addr" := by decide
  have h3 : toString (0 + 1) = "1" := by decide
  have h4 : toString (0 + 1 + 1) = "2" := by decide
  have h5 : ("    1: optional " : String) = "    " ++ ("1" ++ ": optional ") := rfl
  have h6 : (" host_name; // " : String) = " " ++ ("host_name" ++ "; // ") := rfl
  have h7 : ("    2: list<" : String) = "    " ++ ("2" ++ ": list<") := rfl
  have h8 : ("> ip_addr; // " : String) = "> " ++ ("ip_addr" ++ "; // ") := rfl
  have h9 : ("\nstruct Device \x7b\n" : String) = "\n" ++ ("struct " ++ ("Device" ++ " \x7b\n")) :=
    rfl
  have hname : deviceTwo.Name = "Device" := rfl
  have hdesc : deviceTwo.Description = "" := rfl
  have hn3 : leafHost.Node = ⟨3⟩ := rfl
  have hn4 : leafIp.Node = ⟨4⟩ := rfl
  simp only [Spec.structText, sample_children_deviceTwo, Spec.fieldsText, List.enumFrom,
    List.map, Spec.concat, Spec.commentBlock, hname, hdesc, hfix, if_true,
    fieldBlock_optional P _ "host-name" leafHost rfl rfl,
    fieldBlock_list P _ "ip-addr" leafIp rfl (by decide), h1, h2, h3, h4, hn3, hn4]
  simp only [h5, h6, h7, h8, h9, String.append_assoc, String.append_empty,
    String.empty_append]

/-- C15 amended, in the sample environment `thriftPkg`. -/
theorem C15_device_scenario_witness :
    thriftPkg.fixName "Device" = "Device" ∧
    FormatStruct thriftPkg "" deviceTwo = some ("" ++
      ("\nstruct Device \x7b\n" ++
       "    1: optional " ++ Spec.typeToken thriftPkg leafHost ++ " host_name; // " ++
         thriftPkg.Source ⟨3⟩ ++ "\n" ++
       "    2: list<" ++ Spec.typeToken thriftPkg leafIp ++ "> ip_addr; // " ++
         thriftPkg.Source ⟨4⟩ ++ "\n" ++
       "\x7d\n")) :=
  ⟨rfl, C15_device_scenario thriftPkg "" rfl⟩

/-- C20: the field names of one struct need not be distinct: the node `twins` has
the two non-RPC children `a-b` and `a_b`, and `FormatStruct` writes for them two
field lines with the tags 1 and 2 and the same field name `a_b`. -/
theorem C20_field_names_may_repeat :
    "a-b" ≠ "a_b" ∧
    twins.Dir.map Prod.fst = ["a_b", "a-b"] ∧
    (∀ p ∈ twins.Dir, p.2.RPC = none) ∧
    Replace "a-b" "-" "_" = "a_b" ∧ Replace "a_b" "-" "_" = "a_b" ∧
    ∀ (P : Pkg) (w : Writer), FormatStruct P w twins = some (w ++
      ("\n" ++ "struct " ++ P.fixName "twins" ++ " \x7b\n" ++
       "    1: list<" ++ Spec.typeToken P leafIp ++ "> a_b; // " ++ P.Source ⟨4⟩ ++ "\n" ++
       "    2: optional " ++ Spec.typeToken P leafHost ++ " a_b; // " ++ P.Source ⟨3⟩ ++ "\n" ++
       "\x7d\n")) := by
  refine ⟨by decide, rfl, ?_, by decide, by decide, fun P w => ?_⟩
  · intro p hp
    simp only [twins, Entry.Dir, List.mem_cons, List.mem_singleton, List.not_mem_nil,
      or_false] at hp
    rcases hp with h | h <;> subst h <;> rfl
  rw [FormatStruct_of_nonRPC P w twins (by decide) ⟨("a_b", leafHost), List.Mem.head _, rfl⟩]
  have h1 : Replace "a-b" "-" "_" = "a_b" := by decide
  have h2 : Replace "a_b" "-" "_" = "a_b" := by decide
  have h3 : toString (0 + 1) = "1" := by decide
  have h4 : toString (0 + 1 + 1) = "2" := by decide
  have h5 : ("    2: optional " : String) = "    " ++ ("2" ++ ": optional ") := rfl
  have h6 : (" a_b; // " : String) = " " ++ ("a_b" ++ "; // ") := rfl
  have h7 : ("    1: list<" : String) = "    " ++ ("1" ++ ": list<") := rfl
  have h8 : ("> a_b; // " : String) = "> " ++ ("a_b" ++ "; // ") := rfl
  have hname : twins.Name = "twins" := rfl
  have hdesc : twins.Description = "" := rfl
  have hn3 : leafHost.Node = ⟨3⟩ := rfl
  have hn4 : leafIp.Node = ⟨4⟩ := rfl
  simp only [Spec.structText, sample_children_twins, Spec.fieldsText, List.enumFrom,
    List.map, Spec.concat, Spec.commentBlock, hname, hdesc, if_true,
    fieldBlock_optional P _ "a_b" leafHost rfl rfl,
    fieldBlock_list P _ "a-b" leafIp rfl (by decide), h1, h2, h3, h4, hn3, hn4]
  simp only [h5, h6, h7, h8, String.append_assoc, String.append_empty,
    String.empty_append]

theorem typeToken_of_no_type (P : Pkg) (c : Entry) (ht : c.Typ = none) :
    Spec.typeToken P c = P.fixName c.Name := by
  rcases c with ⟨n, d, dir, r, l, t, nd⟩
  simp only [Entry.Typ] at ht
  subst ht
  cases dir <;> rfl

theorem typeToken_of_leaf (P : Pkg) (c : Entry) (t : YangType) (hdir : c.Dir = [])
    (ht : c.Typ = some t) : Spec.typeToken P c = mapIndex P.kind2proto t.Kind := by
  rcases c with ⟨n, d, dir, r, l, t2, nd⟩
  simp only [Entry.Typ, Entry.Dir] at ht hdir
  subst ht hdir
  rfl

theorem fieldBlock_token (P : Pkg) (i : Nat) (k : String) (c : Entry) (tok : String)
    (ht : Spec.typeToken P c = tok) :
    Spec.fieldBlock P (i + 1) k c =
      Spec.commentBlock P "  // " c.Description ++
        "    " ++ toString (i + 1) ++ ": " ++
        (if c.ListAttr ≠ none then "list<" ++ tok ++ "> " else "optional " ++ tok ++ " ") ++
        Replace k "-" "_" ++ "; // " ++ P.Source c.Node ++ "\n" := by
  by_cases hl : c.ListAttr = none <;>
    simp [Spec.fieldBlock, Spec.fieldLine, Spec.fieldRest, ht, hl, String.append_assoc,
      -String.reduceAppend]

theorem formatFieldInit_eq (u : String) (P : Pkg) (e : Entry) (x : Nat) (k : String)
    (w : Writer) : formatFieldInit u P e x k w = formatField P e x k w := by
  unfold formatFieldInit formatField
  cases dirIndex e.Dir k with
  | none => rfl
  | some se =>
    rcases se with ⟨n, d, dir, r, l, t, nd⟩
    cases t with
    | none => simp [Entry.Typ]
    | some t => rfl

/-- C14, refuted as stated: the child `hollow` of `shell` has no children and no
type; it gets no struct of its own, and yet `shell` gets a field line for it, whose
type token names that struct. -/
theorem C14_counterexample_field_for_empty_container :
    (hollow.Dir = [] ∧ hollow.Typ = none ∧ hollow.RPC = none) ∧
    shell.Dir = [("state", hollow)] ∧
    FormatStruct samplePkg "" hollow = some "" ∧
    FormatStruct samplePkg "" shell = some
      "\nstruct shell \x7b\n    1: optional state state; // f.yang:9\n\x7d\n" := by
  refine ⟨⟨rfl, rfl, rfl⟩, rfl, by decide, by decide⟩

/-- C14, amended: a child `c` without a non-RPC child of its own and without a type
gets no struct when it is rendered; when its own `RPC` is nil the parent gets a
field line for it all the same, with the type token `fixName c.Name`, the name of
a struct that is not written. -/
theorem C14_empty_container_keeps_its_field (P : Pkg) (w : Writer) (e : Entry) (k : String)
    (c : Entry) (hd : NodupKeys e.Dir) (hc : (k, c) ∈ e.Dir) (hr : c.RPC = none)
    (hall : ∀ p ∈ c.Dir, p.2.RPC ≠ none) (ht : c.Typ = none) :
    FormatStruct P w c = some w ∧
    ∃ (i : Nat) (pre post : String),
      i < (e.Dir.filter fun p => p.2.RPC = none).length ∧
      FormatStruct P w e = some (w ++ pre ++
        (Spec.commentBlock P "  // " c.Description ++
          "    " ++ toString (i + 1) ++ ": " ++
          (if c.ListAttr ≠ none then "list<" ++ P.fixName c.Name ++ "> "
            else "optional " ++ P.fixName c.Name ++ " ") ++
          Replace k "-" "_" ++ "; // " ++ P.Source c.Node ++ "\n") ++ post) := by
  refine ⟨FormatStruct_of_allRPC P w c hall, ?_⟩
  obtain ⟨i, pre, post, hi, h⟩ := FormatStruct_block_of_child P w e hd k c hc hr
  exact ⟨i, pre, post, hi, by
    rw [h, fieldBlock_token P i k c _ (typeToken_of_no_type P c ht)]⟩

/-- C14 amended, at the sample nodes `shell` and `hollow`. -/
theorem C14_empty_container_keeps_its_field_witness :
    (NodupKeys shell.Dir ∧ ("state", hollow) ∈ shell.Dir ∧ hollow.RPC = none ∧
      (∀ p ∈ hollow.Dir, p.2.RPC ≠ none) ∧ hollow.Typ = none) ∧
    FormatStruct samplePkg "" hollow = some "" ∧
    ∃ (i : Nat) (pre post : String),
      i < (shell.Dir.filter fun p => p.2.RPC = none).length ∧
      FormatStruct samplePkg "" shell = some ("" ++ pre ++
        (Spec.commentBlock samplePkg "  // " hollow.Description ++
          "    " ++ toString (i + 1) ++ ": " ++
          (if hollow.ListAttr ≠ none then "list<" ++ samplePkg.fixName hollow.Name ++ "> "
            else "optional " ++ samplePkg.fixName hollow.Name ++ " ") ++
          Replace "state" "-" "_" ++ "; // " ++ samplePkg.Source hollow.Node ++ "\n") ++
        post) :=
  ⟨⟨by decide, List.Mem.head _, rfl, fun _ h => absurd h (List.not_mem_nil _), rfl⟩,
    C14_empty_container_keeps_its_field samplePkg "" shell "state" hollow (by decide)
      (List.Mem.head _) rfl (fun _ h => absurd h (List.not_mem_nil _)) rfl⟩

/-- C19: the initial value of `kind` at line 100 is never written: the pass of the
field loop gives the same result for every initial value; a non-RPC child without
children and with a type gets the `kind2proto` entry of its kind as type token,
and a non-RPC child without children and without a type goes through the other
branch and gets `fixName` of its name. -/
theorem C19_unknown_type_is_dead (P : Pkg) (w : Writer) (e : Entry) (k : String)
    (c : Entry) (hd : NodupKeys e.Dir) (hc : (k, c) ∈ e.Dir) (hr : c.RPC = none)
    (hdir : c.Dir = []) :
    (∀ (u : String) (e1 : Entry) (x : Nat) (k1 : String) (w1 : Writer),
      formatFieldInit u P e1 x k1 w1 = formatField P e1 x k1 w1) ∧
    (∀ t : YangType, c.Typ = some t →
      ∃ (i : Nat) (pre post : String),
        i < (e.Dir.filter fun p => p.2.RPC = none).length ∧
        FormatStruct P w e = some (w ++ pre ++
          (Spec.commentBlock P "  // " c.Description ++
            "    " ++ toString (i + 1) ++ ": " ++
            (if c.ListAttr ≠ none then "list<" ++ mapIndex P.kind2proto t.Kind ++ "> "
              else "optional " ++ mapIndex P.kind2proto t.Kind ++ " ") ++
            Replace k "-" "_" ++ "; // " ++ P.Source c.Node ++ "\n") ++ post)) ∧
    (c.Typ = none →
      ∃ (i : Nat) (pre post : String),
        i < (e.Dir.filter fun p => p.2.RPC = none).length ∧
        FormatStruct P w e = some (w ++ pre ++
          (Spec.commentBlock P "  // " c.Description ++
            "    " ++ toString (i + 1) ++ ": " ++
            (if c.ListAttr ≠ none then "list<" ++ P.fixName c.Name ++ "> "
              else "optional " ++ P.fixName c.Name ++ " ") ++
            Replace k "-" "_" ++ "; // " ++ P.Source c.Node ++ "\n") ++ post)) := by
  obtain ⟨i, pre, post, hi, h⟩ := FormatStruct_block_of_child P w e hd k c hc hr
  refine ⟨fun u e1 x k1 w1 => formatFieldInit_eq u P e1 x k1 w1, fun t ht => ?_, fun ht => ?_⟩
  · exact ⟨i, pre, post, hi, by
      rw [h, fieldBlock_token P i k c _ (typeToken_of_leaf P c t hdir ht)]⟩
  · exact ⟨i, pre, post, hi, by
      rw [h, fieldBlock_token P i k c _ (typeToken_of_no_type P c ht)]⟩

/-- C19 at the sample node `shell`, whose child has neither children nor a type,
and at `deviceTwo`, whose children are leaves. -/
theorem C19_unknown_type_is_dead_witness :
    (NodupKeys shell.Dir ∧ ("state", hollow) ∈ shell.Dir ∧ hollow.RPC = none ∧
      hollow.Dir = [] ∧ hollow.Typ = none) ∧
    (∃ (i : Nat) (pre post : String),
      i < (shell.Dir.filter fun p => p.2.RPC = none).length ∧
      FormatStruct samplePkg "" shell = some ("" ++ pre ++
        (Spec.commentBlock samplePkg "  // " hollow.Description ++
          "    " ++ toString (i + 1) ++ ": " ++
          (if hollow.ListAttr ≠ none then "list<" ++ samplePkg.fixName hollow.Name ++ "> "
            else "optional " ++ samplePkg.fixName hollow.Name ++ " ") ++
          Replace "state" "-" "_" ++ "; // " ++ samplePkg.Source hollow.Node ++ "\n") ++
        post)) ∧
    FormatStruct samplePkg "" shell = some
      "\nstruct shell \x7b\n    1: optional state state; // f.yang:9\n\x7d\n" ∧
    formatFieldInit "no such type" samplePkg deviceTwo 1 "ip-addr" "" =
      some "    2: list<uint32> ip_addr; // f.yang:4\n" :=
  ⟨⟨by decide, List.Mem.head _, rfl, rfl, rfl⟩,
    (C19_unknown_type_is_dead samplePkg "" shell "state" hollow (by decide)
      (List.Mem.head _) rfl rfl).2.2 rfl,
    by decide, by decide⟩

/-! ## The claim on the description of a child -/

theorem redescribe_fst (k d : String) (p : String × Entry) : (redescribe k d p).1 = p.1 := by
  unfold redescribe
  split <;> rfl

theorem setDescription_RPC (c : Entry) (d : String) : (c.setDescription d).RPC = c.RPC := by
  cases c; rfl

theorem nonRPC_redescribe (k d : String) (p : String × Entry) :
    nonRPC (redescribe k d p) = nonRPC p := by
  unfold redescribe
  split
  · simp [nonRPC, setDescription_RPC]
  · rfl

theorem map_redescribe_of_not_mem (k d : String) (l : List (String × Entry))
    (h : k ∉ l.map Prod.fst) : l.map (redescribe k d) = l := by
  conv_rhs => rw [← List.map_id l]
  apply List.map_congr_left
  intro p hp
  have : p.1 ≠ k := fun h2 => h (h2 ▸ List.mem_map_of_mem Prod.fst hp)
  simp [redescribe, this]

theorem map_redescribe_split (k d : String) (c : Entry) (l1 l2 : List (String × Entry))
    (hd : NodupKeys (l1 ++ (k, c) :: l2)) :
    (l1 ++ (k, c) :: l2).map (redescribe k d) = l1 ++ (k, c.setDescription d) :: l2 := by
  have hn : (l1.map Prod.fst ++ k :: l2.map Prod.fst).Nodup := by
    simpa [NodupKeys] using hd
  have h1 : k ∉ l1.map Prod.fst := fun h =>
    (List.nodup_append.1 hn).2.2 h (List.mem_cons_self _ _)
  have h2 : k ∉ l2.map Prod.fst := (List.nodup_cons.1 (List.nodup_append.1 hn).2.1).1
  rw [List.map_append, List.map_cons, map_redescribe_of_not_mem k d l1 h1,
    map_redescribe_of_not_mem k d l2 h2]
  simp [redescribe]

theorem filter_map_redescribe (k d : String) (l : List (String × Entry)) :
    (l.map (redescribe k d)).filter nonRPC = (l.filter nonRPC).map (redescribe k d) := by
  induction l with
  | nil => rfl
  | cons p l ih =>
    by_cases hp : nonRPC p = true
    · simp [List.filter_cons, nonRPC_redescribe, hp, ih]
    · simp [List.filter_cons, nonRPC_redescribe, hp, ih]

theorem orderedInsert_map_redescribe (k d : String) (a : String × Entry)
    (l : List (String × Entry)) :
    (l.map (redescribe k d)).orderedInsert (fun a b => a.1.data ≤ b.1.data)
        (redescribe k d a) =
      (l.orderedInsert (fun a b => a.1.data ≤ b.1.data) a).map (redescribe k d) := by
  induction l with
  | nil => rfl
  | cons q l ih =>
    by_cases h : a.1.data ≤ q.1.data
    · simp [List.orderedInsert, redescribe_fst, h]
    · simp [List.orderedInsert, redescribe_fst, h, ih]

theorem insertionSort_map_redescribe (k d : String) (l : List (String × Entry)) :
    (l.map (redescribe k d)).insertionSort (fun a b => a.1.data ≤ b.1.data) =
      (l.insertionSort (fun a b => a.1.data ≤ b.1.data)).map (redescribe k d) := by
  induction l with
  | nil => rfl
  | cons q l ih =>
    simp only [List.map_cons, List.insertionSort, ih, orderedInsert_map_redescribe]

theorem children_redescribe (k d : String) (e1 e2 : Entry)
    (h : e2.Dir = e1.Dir.map (redescribe k d)) :
    Spec.children e2 = (Spec.children e1).map (redescribe k d) := by
  simp only [Spec.children, h, filter_map_redescribe, insertionSort_map_redescribe]

theorem fieldLine_setDescription (P : Pkg) (i : Nat) (k : String) (c : Entry) (d : String) :
    Spec.fieldLine P i k (c.setDescription d) = Spec.fieldLine P i k c := by
  cases c; rfl

theorem description_setDescription (c : Entry) (d : String) :
    (c.setDescription d).Description = d := by
  cases c; rfl

theorem FormatStruct_redescribed (P : Pkg) (w : Writer) (e e2 : Entry)
    (l1 l2 : List (String × Entry)) (k : String) (c : Entry) (d2 : String)
    (hdir : e.Dir = l1 ++ (k, c) :: l2) (hd : NodupKeys e.Dir) (hr : c.RPC = none)
    (hn2 : e2.Name = e.Name) (hdesc2 : e2.Description = e.Description)
    (hdir2 : e2.Dir = l1 ++ (k, c.setDescription d2) :: l2) :
    ∃ (i : Nat) (pre post : String),
      FormatStruct P w e = some (w ++ pre ++
        (Spec.commentBlock P "  // " c.Description ++
          ("    " ++ toString (i + 1) ++ ": " ++ Spec.fieldRest P k c)) ++ post) ∧
      FormatStruct P w e2 = some (w ++ pre ++
        (Spec.commentBlock P "  // " d2 ++
          ("    " ++ toString (i + 1) ++ ": " ++ Spec.fieldRest P k c)) ++ post) := by
  have hc : (k, c) ∈ e.Dir := by rw [hdir]; simp
  have hmem : (k, c) ∈ Spec.children e :=
    (children_perm e).mem_iff.2 (List.mem_filter.2 ⟨hc, by simp [nonRPC, hr]⟩)
  obtain ⟨m1, m2, hsplit⟩ := List.append_of_mem hmem
  have hnd : NodupKeys (m1 ++ (k, c) :: m2) := by
    rw [← hsplit]; exact (children_keys_sorted hd).nodup
  have hd2 : NodupKeys e2.Dir := by
    have h := hd
    rw [hdir] at h
    rw [hdir2]
    simpa [NodupKeys] using h
  have hmap : e2.Dir = e.Dir.map (redescribe k d2) := by
    rw [hdir2, hdir, map_redescribe_split k d2 c l1 l2 (hdir ▸ hd)]
  have hch2 := children_redescribe k d2 e e2 hmap
  rw [hsplit, map_redescribe_split k d2 c m1 m2 hnd] at hch2
  have hfl : ∀ j : Nat, Spec.fieldLine P j k c =
      "    " ++ toString j ++ ": " ++ Spec.fieldRest P k c := fun _ => rfl
  refine ⟨m1.length,
    "\n" ++ Spec.commentBlock P "// " e.Description ++ "struct " ++ P.fixName e.Name ++
      " \x7b\n" ++ Spec.fieldsText P 0 m1,
    Spec.fieldsText P (m1.length + 1) m2 ++ "\x7d\n", ?_, ?_⟩
  · rw [FormatStruct_of_nonRPC P w e hd ⟨(k, c), hc, hr⟩]
    simp only [Spec.structText, hsplit, fieldsText_split, Nat.zero_add, Spec.fieldBlock, hfl,
      String.append_assoc]
  · rw [FormatStruct_of_nonRPC P w e2 hd2
      ⟨(k, c.setDescription d2), by rw [hdir2]; simp,
        by rw [setDescription_RPC]; exact hr⟩]
    simp only [Spec.structText, hch2, fieldsText_split, Nat.zero_add, Spec.fieldBlock,
      fieldLine_setDescription, description_setDescription, hfl, hn2, hdesc2,
      String.append_assoc]

/-- C12: for a rendered child `c` under the key `k`, replacing the description of
`c` by `d2` and nothing else changes only the comment block before the field line
of `c`: what precedes it (`pre`), the field line itself (tag, modifier, type
token, field name, trailing comment) and what follows it (`post`) stay the same;
and an empty description gives no comment line before the field line. -/
theorem C12_child_description_only_changes_comment (P : Pkg) (w : Writer) (e : Entry)
    (l1 l2 : List (String × Entry)) (k : String) (c : Entry) (d2 : String)
    (hdir : e.Dir = l1 ++ (k, c) :: l2) (hd : NodupKeys e.Dir) (hr : c.RPC = none) :
    ∃ (i : Nat) (pre post : String),
      FormatStruct P w e = some (w ++ pre ++
        (Spec.commentBlock P "  // " c.Description ++
          ("    " ++ toString (i + 1) ++ ": " ++ Spec.fieldRest P k c)) ++ post) ∧
      FormatStruct P w
          (.mk e.Name e.Description (l1 ++ (k, c.setDescription d2) :: l2)
            e.RPC e.ListAttr e.Typ e.Node) =
        some (w ++ pre ++
          (Spec.commentBlock P "  // " d2 ++
            ("    " ++ toString (i + 1) ++ ": " ++ Spec.fieldRest P k c)) ++ post) ∧
      Spec.commentBlock P "  // " "" = "" ∧
      (c.Description = "" →
        FormatStruct P w e = some (w ++ pre ++
          ("    " ++ toString (i + 1) ++ ": " ++ Spec.fieldRest P k c) ++ post)) := by
  obtain ⟨i, pre, post, h1, h2⟩ := FormatStruct_redescribed P w e
    (.mk e.Name e.Description (l1 ++ (k, c.setDescription d2) :: l2)
      e.RPC e.ListAttr e.Typ e.Node) l1 l2 k c d2 hdir hd hr rfl rfl rfl
  refine ⟨i, pre, post, h1, h2, by simp [Spec.commentBlock], fun h0 => ?_⟩
  rw [h1, h0]
  simp [Spec.commentBlock, String.append_assoc]

/-- C12 at the sample node `noted`: the description of its child is removed. -/
theorem C12_child_description_only_changes_comment_witness :
    (noted.Dir = [] ++ ("host-name", leafNoted) :: [] ∧ NodupKeys noted.Dir ∧
      leafNoted.RPC = none ∧ leafNoted.setDescription "" = leafHost) ∧
    (∃ (i : Nat) (pre post : String),
      FormatStruct specPkg "" noted = some ("" ++ pre ++
        (Spec.commentBlock specPkg "  // " leafNoted.Description ++
          ("    " ++ toString (i + 1) ++ ": " ++
            Spec.fieldRest specPkg "host-name" leafNoted)) ++ post) ∧
      FormatStruct specPkg ""
          (.mk noted.Name noted.Description
            ([] ++ ("host-name", leafNoted.setDescription "") :: [])
            noted.RPC noted.ListAttr noted.Typ noted.Node) =
        some ("" ++ pre ++
          (Spec.commentBlock specPkg "  // " "" ++
            ("    " ++ toString (i + 1) ++ ": " ++
              Spec.fieldRest specPkg "host-name" leafNoted)) ++ post)) ∧
    FormatStruct specPkg "" noted = some
      "\n// System group.\n// Second line.\nstruct system \x7b\n  // Name of the host.\n  // As configured.\n    1: optional string host_name; // f.yang:3\n\x7d\n" ∧
    FormatStruct specPkg ""
        (.mk "system" "System group.\nSecond line." [("host-name", leafHost)]
          none none none ⟨7⟩) = some
      "\n// System group.\n// Second line.\nstruct system \x7b\n    1: optional string host_name; // f.yang:3\n\x7d\n" := by
  obtain ⟨i, pre, post, h1, h2, _, _⟩ :=
    C12_child_description_only_changes_comment specPkg "" noted [] [] "host-name" leafNoted ""
      rfl (by decide) rfl
  exact ⟨⟨rfl, by decide, rfl, rfl⟩, ⟨i, pre, post, h1, h2⟩, by decide, by decide⟩

end Thrift
